import Mathlib

/-!
# Verification of the mini-wal write-ahead log engine

A shallow embedding of the `frfahim/mini-wal` repository (Go) and proofs
about it.  Bytes are modelled as `Nat`s below 256, machine integers as
`Nat`/`Int` with explicit `% 2^w` where overflow matters, files as lists of
bytes, and the log directory as an association list from file name to
content.

The repository contains two generations of the engine file `wal.go`:
an older draft (at `internal/wal.go`, here namespace `WalOld`) and a newer
draft (bundled in `README.md` after the markdown body, here namespace
`WalNew`).  `internal/segments.go` is shared by both and is embedded once.
-/

namespace MiniWal

/-- One logical WAL record; models the protobuf message `WAL_DATA`
(`wal.proto`, shown in `README.md`): `uint64 logSeqNo = 1`,
`bytes data = 2`, `uint32 checksum = 3`, `optional bool isCheckpoint = 4`.
`isCheckpoint = none` models the nil pointer of the generated Go struct. -/
structure Entry where
  logSeqNo : Nat
  data : List Nat
  checksum : Nat
  isCheckpoint : Option Bool
deriving DecidableEq, Repr

/-- Models the generated getter `GetIsCheckpoint` (false when unset). -/
def Entry.getIsCheckpoint (e : Entry) : Bool := e.isCheckpoint.getD false

/-! ## CRC32 (IEEE), as computed by Go `hash/crc32.ChecksumIEEE` -/

/-- The reflected IEEE polynomial used by `crc32.IEEETable`. -/
def crc32Poly : Nat := 0xEDB88320

/-- One bit step of the (reflected) CRC32 computation: shift right and
conditionally xor with the polynomial. -/
def crc32Bit (c : Nat) : Nat :=
  if c % 2 == 1 then (c / 2) ^^^ crc32Poly else c / 2

/-- Fold one input byte into the running CRC. -/
def crc32Byte (c b : Nat) : Nat :=
  crc32Bit (crc32Bit (crc32Bit (crc32Bit
    (crc32Bit (crc32Bit (crc32Bit (crc32Bit (c ^^^ b))))))))

/-- `crc32.ChecksumIEEE`: initial value `0xFFFFFFFF`, final xor-out. -/
def crc32 (bs : List Nat) : Nat :=
  (bs.foldl crc32Byte 0xFFFFFFFF) ^^^ 0xFFFFFFFF

/-- Go `byte(x)` conversion. -/
def byteOf (n : Nat) : Nat := n % 256

/-! ## Little-endian length prefix (`binary.LittleEndian` uint32) -/

/-- The four bytes written for a `uint32` by `binary.Write(..., LittleEndian, size)`. -/
def putUint32LE (n : Nat) : List Nat :=
  [n % 256, n / 2 ^ 8 % 256, n / 2 ^ 16 % 256, n / 2 ^ 24 % 256]

/-- The `uint32` read back by `binary.Read(..., LittleEndian, &size)`. -/
def getUint32LE (a b c d : Nat) : Nat :=
  a + 2 ^ 8 * b + 2 ^ 16 * c + 2 ^ 24 * d

/-! ## Protobuf wire format for `WAL_DATA`

The generated serializer (`wal.pb.go`) is produced by `protoc` from the
schema in `README.md`; we embed the standard proto3 wire format it uses:
varints, and the four fields of `WAL_DATA` in field-number order, each
omitted at its default value (`isCheckpoint` has explicit presence). -/

/-- Protobuf base-128 varint encoding (low groups first).  Like Go's
`protowire.AppendVarint` loop, at most ten groups are ever produced (a
`uint64` needs no more); the fuel argument makes the recursion structural. -/
def varintAux : Nat → Nat → List Nat
  | 0, n => [n]
  | fuel + 1, n => if n < 128 then [n] else (n % 128 + 128) :: varintAux fuel (n / 128)

/-- Varint encoding of one (64-bit) value. -/
def varint (n : Nat) : List Nat := varintAux 9 n

/-- Varint decoding; returns the value and the remaining bytes. -/
def readVarint : List Nat → Option (Nat × List Nat)
  | [] => none
  | b :: rest =>
    if b < 128 then some (b, rest)
    else
      match readVarint rest with
      | none => none
      | some (v, r) => some (v * 128 + (b - 128), r)

/-- `proto.Marshal` for a `WAL_DATA` value: fields in field-number order,
zero-valued scalar fields omitted, optional bool emitted iff set. -/
def marshalEntry (e : Entry) : List Nat :=
  (if e.logSeqNo = 0 then [] else 8 :: varint e.logSeqNo) ++
  ((if e.data = [] then [] else 18 :: (varint e.data.length ++ e.data)) ++
  ((if e.checksum = 0 then [] else 24 :: varint e.checksum) ++
  (match e.isCheckpoint with
   | some b => [32, if b then 1 else 0]
   | none => [])))

/-- Read exactly `n` bytes (protobuf length-delimited payload); fails when
fewer are available. -/
def readN (n : Nat) (bs : List Nat) : Option (List Nat × List Nat) :=
  if bs.length < n then none else some (bs.take n, bs.drop n)

theorem readVarint_some_length {bs : List Nat} {v : Nat} {r : List Nat}
    (h : readVarint bs = some (v, r)) : r.length < bs.length := by
  induction bs generalizing v r with
  | nil => simp [readVarint] at h
  | cons b rest ih =>
    by_cases hb : b < 128
    · simp [readVarint, hb] at h
      simp [h.2.symm]
    · simp only [readVarint, if_neg hb] at h
      cases hrec : readVarint rest with
      | none => rw [hrec] at h; simp at h
      | some p =>
        rw [hrec] at h
        cases p with
        | mk v' r' =>
          simp at h
          have := ih (v := v') (r := r') hrec
          simp [← h.2]
          omega

theorem readN_some_length {n : Nat} {bs c r : List Nat}
    (h : readN n bs = some (c, r)) : r.length ≤ bs.length := by
  unfold readN at h
  split at h
  · simp at h
  · simp at h
    rw [← h.2]
    simp [List.length_drop]

/-- `proto.Unmarshal`'s field loop for `WAL_DATA`: read a tag varint, then
the field payload per wire type; known fields update the record (last one
wins), unknown fields are skipped (Go retains their bytes, which the
getters never observe), field number 0 and invalid wire types are errors.
`uint64`/`uint32` values truncate as in Go.  The fuel argument makes the
recursion structural; every field consumes at least one byte, so fuel
`bs.length` (as passed by `unmarshalEntry`) always suffices and the
fuel-exhaustion branch is unreachable from the wrapper. -/
def parseLoop : Nat → List Nat → Entry → Option Entry
  | _, [], e => some e
  | 0, _ :: _, _ => none
  | fuel + 1, b :: bs, e =>
    match readVarint (b :: bs) with
    | none => none
    | some (tag, r1) =>
      if tag / 8 = 0 then none
      else if tag % 8 = 0 then
        match readVarint r1 with
        | none => none
        | some (v, r2) =>
          let e' :=
            if tag / 8 = 1 then { e with logSeqNo := v % 2 ^ 64 }
            else if tag / 8 = 3 then { e with checksum := v % 2 ^ 32 }
            else if tag / 8 = 4 then { e with isCheckpoint := some (v != 0) }
            else e
          parseLoop fuel r2 e'
      else if tag % 8 = 2 then
        match readVarint r1 with
        | none => none
        | some (len, r2) =>
          match readN len r2 with
          | none => none
          | some (chunk, r3) =>
            let e' := if tag / 8 = 2 then { e with data := chunk } else e
            parseLoop fuel r3 e'
      else if tag % 8 = 1 then
        match readN 8 r1 with
        | none => none
        | some (_, r2) => parseLoop fuel r2 e
      else if tag % 8 = 5 then
        match readN 4 r1 with
        | none => none
        | some (_, r2) => parseLoop fuel r2 e
      else none

/-- The field loop entered with sufficient fuel. -/
def parseFields (bs : List Nat) (e : Entry) : Option Entry := parseLoop bs.length bs e

/-- `proto.Unmarshal` into a freshly zeroed `WAL_DATA`. -/
def unmarshalEntry (bs : List Nat) : Option Entry :=
  parseFields bs ⟨0, [], 0, none⟩

/-! ## Frames: `[4-byte little-endian length][serialized record]` -/

/-- The on-disk frame for already-marshalled record bytes, as produced by
`WriteIntoBuffer`: `uint32(len(bytesWalData))` little-endian, then the bytes. -/
def frameOf (recordBytes : List Nat) : List Nat :=
  putUint32LE (recordBytes.length % 2 ^ 32) ++ recordBytes

/-- A whole segment file holding the given records in order. -/
def encodeFrames (es : List Entry) : List Nat :=
  es.foldr (fun e acc => frameOf (marshalEntry e) ++ acc) []

/-! ## Codec round-trip lemmas -/

theorem readVarintAux_append (fuel : Nat) : ∀ (n : Nat) (rest : List Nat),
    n < 128 ^ (fuel + 1) → readVarint (varintAux fuel n ++ rest) = some (n, rest) := by
  induction fuel with
  | zero =>
    intro n rest h
    norm_num at h
    simp [varintAux, readVarint, h]
  | succ fuel ih =>
    intro n rest h
    by_cases h1 : n < 128
    · simp [varintAux, readVarint, h1]
    · have hdiv : n / 128 < 128 ^ (fuel + 1) := by
        apply Nat.div_lt_of_lt_mul
        have hp : (128 : Nat) ^ (fuel + 1 + 1) = 128 ^ (fuel + 1) * 128 := by ring
        omega
      simp only [varintAux, h1, if_false, List.cons_append, readVarint]
      rw [if_neg (by omega : ¬ (n % 128 + 128 < 128)), ih (n / 128) rest hdiv]
      norm_num
      omega

theorem readVarint_varint_append (n : Nat) (rest : List Nat) (h : n < 128 ^ 10) :
    readVarint (varint n ++ rest) = some (n, rest) :=
  readVarintAux_append 9 n rest h

theorem readN_exact (l rest : List Nat) :
    readN l.length (l ++ rest) = some (l, rest) := by
  unfold readN
  rw [if_neg (by simp)]
  simp

theorem parseLoop_nil (f : Nat) (acc : Entry) : parseLoop f [] acc = some acc := by
  cases f <;> rfl

theorem parseLoop_mono (n : Nat) : ∀ (bs : List Nat) (f g : Nat) (e : Entry),
    bs.length ≤ n → bs.length ≤ f → bs.length ≤ g →
    parseLoop f bs e = parseLoop g bs e := by
  induction n with
  | zero =>
    intro bs f g e hn _ _
    have hbs : bs = [] := List.length_eq_zero.mp (by omega)
    subst hbs
    rw [parseLoop_nil, parseLoop_nil]
  | succ n ih =>
    intro bs f g e hn hf hg
    cases bs with
    | nil => rw [parseLoop_nil, parseLoop_nil]
    | cons b tl =>
      simp only [List.length_cons] at hn hf hg
      obtain ⟨f1, rfl⟩ : ∃ f1, f = f1 + 1 := ⟨f - 1, by omega⟩
      obtain ⟨g1, rfl⟩ : ∃ g1, g = g1 + 1 := ⟨g - 1, by omega⟩
      simp only [parseLoop]
      cases hv : readVarint (b :: tl) with
      | none => rfl
      | some p =>
        obtain ⟨tag, r1⟩ := p
        have hr1 : r1.length < tl.length + 1 := by
          have := readVarint_some_length hv
          simpa using this
        simp only []
        by_cases ht0 : tag / 8 = 0
        · simp [ht0]
        · simp only [ht0, if_false]
          by_cases hw0 : tag % 8 = 0
          · simp only [hw0, if_pos]
            cases hv2 : readVarint r1 with
            | none => rfl
            | some q =>
              obtain ⟨v, r2⟩ := q
              have hr2 : r2.length < r1.length := readVarint_some_length hv2
              simp only []
              exact ih r2 f1 g1 _ (by omega) (by omega) (by omega)
          · simp only [hw0, if_false]
            by_cases hw2 : tag % 8 = 2
            · simp only [hw2, if_pos]
              cases hv2 : readVarint r1 with
              | none => rfl
              | some q =>
                obtain ⟨len, r2⟩ := q
                have hr2 : r2.length < r1.length := readVarint_some_length hv2
                simp only []
                cases hn3 : readN len r2 with
                | none => rfl
                | some q3 =>
                  obtain ⟨chunk, r3⟩ := q3
                  have hr3 : r3.length ≤ r2.length := readN_some_length hn3
                  simp only []
                  exact ih r3 f1 g1 _ (by omega) (by omega) (by omega)
            · simp only [hw2, if_false]
              by_cases hw1 : tag % 8 = 1
              · simp only [hw1, if_pos]
                cases hn3 : readN 8 r1 with
                | none => rfl
                | some q3 =>
                  obtain ⟨chunk, r2⟩ := q3
                  have hr2 : r2.length ≤ r1.length := readN_some_length hn3
                  simp only []
                  exact ih r2 f1 g1 _ (by omega) (by omega) (by omega)
              · simp only [hw1, if_false]
                by_cases hw5 : tag % 8 = 5
                · simp only [hw5, if_pos]
                  cases hn3 : readN 4 r1 with
                  | none => rfl
                  | some q3 =>
                    obtain ⟨chunk, r2⟩ := q3
                    have hr2 : r2.length ≤ r1.length := readN_some_length hn3
                    simp only []
                    exact ih r2 f1 g1 _ (by omega) (by omega) (by omega)
                · simp [hw5]

theorem parseFields_fuel (bs : List Nat) (f : Nat) (e : Entry) (hf : bs.length ≤ f) :
    parseLoop f bs e = parseFields bs e :=
  parseLoop_mono bs.length bs f bs.length e (le_refl _) hf (le_refl _)

theorem parse_field1 (k : Nat) (rest : List Nat) (acc : Entry) (hk : k < 128 ^ 10) :
    parseFields ((8 :: varint k) ++ rest) acc
      = parseFields rest { acc with logSeqNo := k % 2 ^ 64 } := by
  unfold parseFields
  simp only [List.cons_append, List.append_eq, List.length_cons, parseLoop, readVarint,
    if_pos (by norm_num : (8 : Nat) < 128)]
  rw [readVarint_varint_append k rest hk]
  norm_num
  exact parseFields_fuel rest _ _ (by simp_arith [List.length_append])

theorem parse_field2 (d rest : List Nat) (acc : Entry) (hd : d.length < 128 ^ 10) :
    parseFields ((18 :: (varint d.length ++ d)) ++ rest) acc
      = parseFields rest { acc with data := d } := by
  unfold parseFields
  simp only [List.cons_append, List.append_eq, List.append_assoc, List.length_cons, parseLoop,
    readVarint, if_pos (by norm_num : (18 : Nat) < 128)]
  rw [readVarint_varint_append d.length (d ++ rest) hd]
  norm_num
  rw [readN_exact]
  norm_num
  exact parseFields_fuel rest _ _ (by simp_arith [List.length_append])

theorem parse_field3 (k : Nat) (rest : List Nat) (acc : Entry) (hk : k < 128 ^ 10) :
    parseFields ((24 :: varint k) ++ rest) acc
      = parseFields rest { acc with checksum := k % 2 ^ 32 } := by
  unfold parseFields
  simp only [List.cons_append, List.append_eq, List.length_cons, parseLoop, readVarint,
    if_pos (by norm_num : (24 : Nat) < 128)]
  rw [readVarint_varint_append k rest hk]
  norm_num
  exact parseFields_fuel rest _ _ (by simp_arith [List.length_append])

theorem parse_field4 (b : Bool) (rest : List Nat) (acc : Entry) :
    parseFields ([32, if b then 1 else 0] ++ rest) acc
      = parseFields rest { acc with isCheckpoint := some b } := by
  unfold parseFields
  cases b <;>
    simp only [List.cons_append, List.nil_append, List.length_cons, parseLoop, readVarint] <;>
    norm_num <;>
    exact parseFields_fuel rest _ _ (by simp_arith [List.length_append])

theorem parse_nil (acc : Entry) : parseFields [] acc = some acc := by
  unfold parseFields
  exact parseLoop_nil _ _

theorem parse_field1_last (k : Nat) (acc : Entry) (hk : k < 128 ^ 10) :
    parseFields (8 :: varint k) acc = some { acc with logSeqNo := k % 2 ^ 64 } := by
  have h := parse_field1 k [] acc hk
  simpa [parse_nil] using h

theorem parse_field2_last (d : List Nat) (acc : Entry) (hd : d.length < 128 ^ 10) :
    parseFields (18 :: (varint d.length ++ d)) acc = some { acc with data := d } := by
  have h := parse_field2 d [] acc hd
  simpa [parse_nil] using h

theorem parse_field3_last (k : Nat) (acc : Entry) (hk : k < 128 ^ 10) :
    parseFields (24 :: varint k) acc = some { acc with checksum := k % 2 ^ 32 } := by
  have h := parse_field3 k [] acc hk
  simpa [parse_nil] using h

theorem parse_field4_last (b : Bool) (acc : Entry) :
    parseFields [32, if b then 1 else 0] acc
      = some { acc with isCheckpoint := some b } := by
  have h := parse_field4 b [] acc
  simpa [parse_nil] using h

theorem parse_field1n (k : Nat) (rest : List Nat) (acc : Entry) (hk : k < 128 ^ 10) :
    parseFields (8 :: (varint k ++ rest)) acc
      = parseFields rest { acc with logSeqNo := k % 2 ^ 64 } := by
  have h := parse_field1 k rest acc hk
  simpa using h

theorem parse_field2n (d rest : List Nat) (acc : Entry) (hd : d.length < 128 ^ 10) :
    parseFields (18 :: (varint d.length ++ (d ++ rest))) acc
      = parseFields rest { acc with data := d } := by
  have h := parse_field2 d rest acc hd
  simpa using h

theorem parse_field3n (k : Nat) (rest : List Nat) (acc : Entry) (hk : k < 128 ^ 10) :
    parseFields (24 :: (varint k ++ rest)) acc
      = parseFields rest { acc with checksum := k % 2 ^ 32 } := by
  have h := parse_field3 k rest acc hk
  simpa using h

theorem parse_field4n (b : Bool) (rest : List Nat) (acc : Entry) :
    parseFields (32 :: (if b then 1 else 0) :: rest) acc
      = parseFields rest { acc with isCheckpoint := some b } := by
  have h := parse_field4 b rest acc
  simpa using h

/-- `proto.Unmarshal` inverts `proto.Marshal` for every in-range record. -/
theorem unmarshalEntry_marshalEntry (e : Entry) (h64 : e.logSeqNo < 2 ^ 64)
    (h32 : e.checksum < 2 ^ 32) (hdl : e.data.length < 2 ^ 32) :
    unmarshalEntry (marshalEntry e) = some e := by
  have hk64 : e.logSeqNo < 128 ^ 10 := by norm_num at h64 ⊢; omega
  have hk32 : e.checksum < 128 ^ 10 := by norm_num at h32 ⊢; omega
  have hkd : e.data.length < 128 ^ 10 := by norm_num at hdl ⊢; omega
  obtain ⟨s, d, c, cp⟩ := e
  simp only at h64 h32 hk64 hk32 hkd
  unfold unmarshalEntry marshalEntry
  by_cases hs : s = 0 <;> by_cases hd : d = [] <;> by_cases hc : c = 0 <;> cases cp <;>
    simp_all [parse_field1n, parse_field2n, parse_field3n, parse_field4n,
      parse_field1_last, parse_field2_last, parse_field3_last, parse_field4_last,
      parse_nil, Nat.mod_eq_of_lt]

/-! ## Size and range bounds -/

/-- A list of genuine bytes (Go `[]byte` values). -/
def IsBytes (l : List Nat) : Prop := ∀ b ∈ l, b < 256

instance (l : List Nat) : Decidable (IsBytes l) := by
  unfold IsBytes
  infer_instance

theorem varintAux_length_le (fuel : Nat) : ∀ n k : Nat, 1 ≤ k → k ≤ fuel + 1 →
    n < 128 ^ k → (varintAux fuel n).length ≤ k := by
  induction fuel with
  | zero =>
    intro n k hk _ _
    simpa [varintAux] using hk
  | succ fuel ih =>
    intro n k hk hkf h
    by_cases h1 : n < 128
    · simp only [varintAux, h1, if_pos, List.length_singleton]
      omega
    · have hk2 : 2 ≤ k := by
        by_contra hlt
        have hk1 : k = 1 := by omega
        subst hk1
        simp only [pow_one] at h
        omega
      have hdiv : n / 128 < 128 ^ (k - 1) := by
        apply Nat.div_lt_of_lt_mul
        have hp : (128 : Nat) ^ k = 128 ^ (k - 1) * 128 := by
          rw [← pow_succ]
          congr 1
          omega
        omega
      simp only [varintAux, h1, if_false, List.length_cons]
      have := ih (n / 128) (k - 1) (by omega) (by omega) hdiv
      omega

theorem varint_length_le (k : Nat) (n : Nat) (hk1 : 1 ≤ k) (hk : k ≤ 10)
    (h : n < 128 ^ k) : (varint n).length ≤ k :=
  varintAux_length_le 9 n k hk1 (by omega) h

theorem crc32Bit_lt (c : Nat) (h : c < 2 ^ 32) : crc32Bit c < 2 ^ 32 := by
  unfold crc32Bit
  split
  · exact Nat.xor_lt_two_pow (by omega) (by norm_num [crc32Poly])
  · omega

theorem crc32Byte_lt (c b : Nat) (hc : c < 2 ^ 32) (hb : b < 256) :
    crc32Byte c b < 2 ^ 32 := by
  unfold crc32Byte
  have h0 : c ^^^ b < 2 ^ 32 := Nat.xor_lt_two_pow hc (by omega)
  exact crc32Bit_lt _ (crc32Bit_lt _ (crc32Bit_lt _ (crc32Bit_lt _ (crc32Bit_lt _
    (crc32Bit_lt _ (crc32Bit_lt _ (crc32Bit_lt _ h0)))))))

theorem crc32_lt (bs : List Nat) (hb : IsBytes bs) : crc32 bs < 2 ^ 32 := by
  unfold crc32
  have hfold : ∀ (l : List Nat) (c : Nat), c < 2 ^ 32 → IsBytes l →
      l.foldl crc32Byte c < 2 ^ 32 := by
    intro l
    induction l with
    | nil => intro c hc _; simpa using hc
    | cons x xs ih =>
      intro c hc hl
      simp only [List.foldl_cons]
      exact ih _ (crc32Byte_lt _ _ hc (hl x (by simp))) (fun b hbm => hl b (by simp [hbm]))
  exact Nat.xor_lt_two_pow (hfold bs 0xFFFFFFFF (by norm_num) hb) (by norm_num)

/-- The marshalled size of an in-range record is its payload size plus at
most 25 bytes of tags and varints. -/
theorem marshalEntry_length_le (e : Entry) (h64 : e.logSeqNo < 2 ^ 64)
    (h32 : e.checksum < 2 ^ 32) (hdl : e.data.length < 2 ^ 32) :
    (marshalEntry e).length ≤ e.data.length + 25 := by
  have h1 : (varint e.logSeqNo).length ≤ 10 :=
    varint_length_le 10 _ (by norm_num) (by norm_num) (by norm_num at h64 ⊢; omega)
  have h2 : (varint e.data.length).length ≤ 5 :=
    varint_length_le 5 _ (by norm_num) (by norm_num) (by norm_num at hdl ⊢; omega)
  have h3 : (varint e.checksum).length ≤ 5 :=
    varint_length_le 5 _ (by norm_num) (by norm_num) (by norm_num at h32 ⊢; omega)
  unfold marshalEntry
  cases e.isCheckpoint <;> split_ifs <;>
    simp_all [List.length_append] <;> omega

/-! ## The frame read loops

Both drafts read a segment with the same loop shape: `binary.Read` a 4-byte
little-endian length (a clean end of file breaks the loop; 1-3 leftover
bytes give `io.ErrUnexpectedEOF`), then a single `File.Read` into a zeroed
`size`-byte slice (at end of file this returns `io.EOF`; a short read
returns the available bytes with the zero padding left in place, as a
single `Read` call reports no error when at least one byte is read), then
`proto.Unmarshal`, then the draft-specific checksum comparison. -/

/-- The loop of `ReadAll` in the older `internal/wal.go` draft (lines
108-137): verifies `crc32.ChecksumIEEE(entry.GetData())` against the stored
checksum — the sequence-number byte is not included.  Structural on the
fuel argument; each iteration consumes at least the 4 length-prefix bytes,
so the wrapper's fuel `bs.length` always suffices and the fuel-exhaustion
branch is unreachable from it. -/
def readLoopOldAux : Nat → List Nat → List Entry → Except String (List Entry)
  | _, [], acc => .ok acc
  | _, [_], _ | _, [_, _], _ | _, [_, _, _], _ => .error "unexpected EOF"
  | 0, _ :: _ :: _ :: _ :: _, _ => .error "unexpected EOF"
  | fuel + 1, b0 :: b1 :: b2 :: b3 :: rest, acc =>
    let size := getUint32LE b0 b1 b2 b3
    if size ≠ 0 ∧ rest = [] then .error "EOF"
    else
      let data := rest.take size ++ List.replicate (size - rest.length) 0
      match unmarshalEntry data with
      | none => .error "proto: cannot parse invalid wire-format data"
      | some entry =>
        if crc32 entry.data != entry.checksum then
          .error ("CRC mismatch for entry with seq no " ++ toString entry.logSeqNo)
        else readLoopOldAux fuel (rest.drop size) (acc ++ [entry])

/-- The older draft's read loop entered with sufficient fuel. -/
def readLoopOld (bs : List Nat) (acc : List Entry) : Except String (List Entry) :=
  readLoopOldAux bs.length bs acc

/-- The loop of `readAllEntries` in the newer `README.md`-bundled draft
(lines 494-529): verifies `crc32.ChecksumIEEE(append(entry.GetData(),
byte(entry.GetLogSeqNo())))`, and when reading from a checkpoint resets the
accumulator (`entries = entries[:0]`) before appending a checkpoint entry.
Structural on the fuel argument, as above. -/
def readLoopNewAux (fromCheckpoint : Bool) :
    Nat → List Nat → List Entry → Except String (List Entry)
  | _, [], acc => .ok acc
  | _, [_], _ | _, [_, _], _ | _, [_, _, _], _ => .error "unexpected EOF"
  | 0, _ :: _ :: _ :: _ :: _, _ => .error "unexpected EOF"
  | fuel + 1, b0 :: b1 :: b2 :: b3 :: rest, acc =>
    let size := getUint32LE b0 b1 b2 b3
    if size ≠ 0 ∧ rest = [] then .error "EOF"
    else
      let data := rest.take size ++ List.replicate (size - rest.length) 0
      match unmarshalEntry data with
      | none => .error "proto: cannot parse invalid wire-format data"
      | some entry =>
        if crc32 (entry.data ++ [byteOf entry.logSeqNo]) != entry.checksum then
          .error ("CRC mismatch for entry with seq no " ++ toString entry.logSeqNo)
        else
          let acc1 := if fromCheckpoint && entry.getIsCheckpoint then [] else acc
          readLoopNewAux fromCheckpoint fuel (rest.drop size) (acc1 ++ [entry])

/-- The newer draft's read loop entered with sufficient fuel. -/
def readLoopNew (fromCheckpoint : Bool) (bs : List Nat) (acc : List Entry) :
    Except String (List Entry) :=
  readLoopNewAux fromCheckpoint bs.length bs acc

/-! ## Recovery scanner (`internal/segments.go`, shared by both drafts) -/

/-- `verifyChecksum` (segments.go line 151): compares the stored checksum
with `crc32.ChecksumIEEE(entry.GetData())` — payload only. -/
def verifyChecksum (e : Entry) : Bool := e.checksum == crc32 e.data

/-- `UnmarshalAndValidateEntry` (segments.go lines 140-149). -/
def UnmarshalAndValidateEntry (data : List Nat) : Except String Entry :=
  match unmarshalEntry data with
  | none => .error "proto: cannot parse invalid wire-format data"
  | some entry =>
    if verifyChecksum entry then .ok entry
    else .error ("invalid checksum for entry with seq no " ++ toString entry.logSeqNo)

/-- `getLastEntryInSegment` (segments.go lines 115-138) reads `wal.file`
itself — the segment handle that `createNewSegment` and
`openExistingSegment` opened write-only (`O_CREATE|O_WRONLY|O_APPEND` at
line 59, `O_WRONLY|O_APPEND` at line 82).  The loop's first
`binary.Read(wal.file, ...)` on a write-only descriptor fails with
`EBADF`, which is not `io.EOF`, so the loop takes its `return nil, err`
branch on every call: no byte of the segment is ever read and no entry is
ever produced.  `name` is the handle's file name — the `*os.PathError`
renders as `read <name>: bad file descriptor` — while the on-disk content
and the handle offset (kept here as the signature of the handle state the
Go method reads) cannot affect the outcome. -/
def getLastEntryInSegment (name : String) (content : List Nat) (off : Nat) :
    Except String (Option Entry) :=
  .error ("read " ++ name ++ ": bad file descriptor")

/-- `getLastSeqNo` (segments.go lines 103-113): propagate the scan's
error, 0 for an empty scan, else the last entry's sequence number. -/
def getLastSeqNo (name : String) (content : List Nat) (off : Nat) : Except String Nat :=
  match getLastEntryInSegment name content off with
  | .error s => .error s
  | .ok none => .ok 0
  | .ok (some e) => .ok e.logSeqNo


/-! ## Configuration (`Options`/`DefaultConfig` from the options file, and
`initConfig` from the newer `wal.go` draft, README.md lines 365-387) -/

/-- The engine options struct (draft with the unexported `maxSegments`
field, the one `initConfig` reads).  `MaxLogFileSize` is an `int32`
(the per-segment size cap, per the README option table); `SyncInterval`
is a `time.Duration` in nanoseconds. -/
structure Options where
  LogDir : String
  MaxLogFileSize : Int
  maxSegments : Int
  EnableSync : Bool
  SyncInterval : Int
deriving DecidableEq, Repr

/-- `DefaultConfig()`: the documented defaults. -/
def DefaultConfig : Options :=
  { LogDir := "./wal_data/"
    MaxLogFileSize := 16 * 1024 * 1024
    maxSegments := 5
    EnableSync := false
    SyncInterval := 5 * 1000000000 }

/-- `initConfig(userConfig)`: start from the defaults and override each
field whose user-supplied value is not the zero value (`nil` user config
keeps all defaults). -/
def initConfig (userConfig : Option Options) : Options :=
  let config := DefaultConfig
  match userConfig with
  | none => config
  | some u =>
    let config := if u.LogDir ≠ "" then { config with LogDir := u.LogDir } else config
    let config := if u.MaxLogFileSize ≠ 0 then { config with MaxLogFileSize := u.MaxLogFileSize } else config
    let config := if u.maxSegments ≠ 0 then { config with maxSegments := u.maxSegments } else config
    let config := if u.SyncInterval ≠ 0 then { config with SyncInterval := u.SyncInterval } else config
    let config := if u.EnableSync ≠ config.EnableSync then { config with EnableSync := u.EnableSync } else config
    config

/-! ## Engine state

The mutable state of a `WriteAheadLog` value together with the bytes on
disk.  `files` is the log directory: an association list from file name to
on-disk content.  The open segment handle is `fileName`/`fileOffset`/
`fileClosed` (`fileIsNil` models `wal.file == nil`); `buf` is the
`bufio.Writer` buffer in front of it.  The background sync goroutine and
the ticker are not modelled (no claim quantifies over their scheduling);
`ctxCancelled` models `wal.ctx.Err() != nil`. -/

structure WalState where
  files : List (String × List Nat)
  fileNameBase : String
  fileName : String
  fileOffset : Nat
  fileClosed : Bool
  fileIsNil : Bool
  buf : List Nat
  lastSeqNo : Nat
  currentSegmentNo : Nat
  maxLogFileSize : Int
  ctxCancelled : Bool
deriving DecidableEq, Repr

/-- `segmentPrefix` in the source ("segment-"). -/
def segmentTag : String := "segment-"

def dirGet (fs : List (String × List Nat)) (n : String) : List Nat :=
  match fs.find? (fun p => p.1 == n) with
  | some p => p.2
  | none => []

def dirHas (fs : List (String × List Nat)) (n : String) : Bool :=
  (fs.find? (fun p => p.1 == n)).isSome

def dirSet : List (String × List Nat) → String → List Nat → List (String × List Nat)
  | [], n, v => [(n, v)]
  | p :: rest, n, v => if p.1 == n then (n, v) :: rest else p :: dirSet rest n v

/-- The content of the active segment file on disk. -/
def curContent (w : WalState) : List Nat := dirGet w.files w.fileName

/-- Append bytes to the active segment on disk (the handle is in
`O_APPEND` mode, so every write lands at end of file). -/
def diskAppend (w : WalState) (bs : List Nat) : WalState :=
  { w with files := dirSet w.files w.fileName (curContent w ++ bs) }

/-- `bufio.NewWriter`'s default buffer size. -/
def bufCap : Nat := 4096

/-- Models `bufio.Writer.Write`: bytes accumulate in the buffer while they
fit; otherwise the buffer is flushed to the file first (an error if the
handle is closed) and an oversized remainder is written through directly. -/
def bufWrite (w : WalState) (bs : List Nat) : Except String Unit × WalState :=
  if w.buf.length + bs.length ≤ bufCap then (.ok (), { w with buf := w.buf ++ bs })
  else if w.fileClosed then (.error "file already closed", w)
  else
    let w1 := { diskAppend w w.buf with buf := [] }
    if bs.length ≤ bufCap then (.ok (), { w1 with buf := bs })
    else (.ok (), diskAppend w1 bs)

/-- Models `bufio.Writer.Flush`: nothing pending is a no-op; otherwise the
buffer is written to the file (an error if the handle is closed). -/
def bufFlush (w : WalState) : Except String Unit × WalState :=
  if w.buf = [] then (.ok (), w)
  else if w.fileClosed then (.error "file already closed", w)
  else (.ok (), { diskAppend w w.buf with buf := [] })

/-- Models `os.File.Sync` (fsync): fails on a closed handle, otherwise
changes nothing observable in this model. -/
def fileSync (w : WalState) : Except String Unit × WalState :=
  if w.fileClosed then (.error "file already closed", w) else (.ok (), w)

/-- `Sync` (identical in both drafts): flush the buffered writer, then
fsync the file. -/
def sync (w : WalState) : Except String Unit × WalState :=
  match bufFlush w with
  | (.error s, w1) => (.error s, w1)
  | (.ok _, w1) =>
    match fileSync w1 with
    | (.error s, w2) => (.error ("failed to sync WAL file: " ++ s), w2)
    | (.ok _, w2) => (.ok (), w2)

/-- `WriteIntoBuffer` (textually identical in both drafts): marshal the
record (`proto.Marshal` cannot fail for this message shape), write the
4-byte little-endian `uint32` length, then the record bytes. -/
def writeIntoBuffer (w : WalState) (entry : Entry) : Except String Unit × WalState :=
  let bytesWalData := marshalEntry entry
  let size := bytesWalData.length % 2 ^ 32
  match bufWrite w (putUint32LE size) with
  | (.error s, w1) => (.error s, w1)
  | (.ok _, w1) => bufWrite w1 bytesWalData

/-! ## Segment store (`internal/segments.go`, shared by both drafts) -/

/-- Byte-wise lexicographic comparison, the order of Go string `<`. -/
def lexLt : List Nat → List Nat → Bool
  | [], [] => false
  | [], _ :: _ => true
  | _ :: _, [] => false
  | a :: as, b :: bs => if a < b then true else if b < a then false else lexLt as bs

/-- The bytes of an (ASCII) file name. -/
def strBytes (s : String) : List Nat := s.data.map Char.toNat

/-- Go string `<=` on file names. -/
def goLeB (a b : String) : Bool := !(lexLt (strBytes b) (strBytes a))

/-- `sort.Strings`: sort ascending in byte-wise lexicographic order. -/
def sortStrings (l : List String) : List String :=
  List.insertionSort (fun a b => goLeB a b = true) l

/-- Is `pat` an initial segment of `cs`?  Models the name filtering of
`filepath.Glob(logFileNamePrefix + "*")` (the base contains no glob
metacharacters, so the pattern matches exactly the names that start with
it). -/
def charsHaveStart : List Char → List Char → Bool
  | [], _ => true
  | _ :: _, [] => false
  | p :: ps, c :: cs => p == c && charsHaveStart ps cs

/-- Glob-style name match against the base. -/
def strHasStart (s pat : String) : Bool := charsHaveStart pat.data s.data

/-- `strings.Split(s, sep)` for a one-character separator. -/
def splitCharAux (sep : Char) : List Char → List Char → List (List Char)
  | [], cur => [cur.reverse]
  | c :: rest, cur =>
    if c == sep then cur.reverse :: splitCharAux sep rest []
    else splitCharAux sep rest (c :: cur)

/-- `strings.Split(s, "-")` (the separator used on segment file names). -/
def strSplitChar (s : String) (sep : Char) : List String :=
  (splitCharAux sep s.data []).map (fun l => String.mk l)

/-- `strconv.Atoi` restricted to unsigned decimals (the only shape segment
numbers take); anything else is an error. -/
def atoi (s : String) : Except String Nat :=
  if s.data ≠ [] ∧ s.data.all (fun c => 48 ≤ c.toNat && c.toNat ≤ 57) then
    .ok (s.data.foldl (fun acc c => acc * 10 + (c.toNat - 48)) 0)
  else .error ("parsing " ++ s ++ ": invalid syntax")

/-- `checkEmptyDir`. -/
def checkEmptyDir (files : List (String × List Nat)) : Bool := files.isEmpty

/-- `createNewSegment`: open `<logFileNamePrefix><currentSegmentNo>` with
`O_CREATE|O_WRONLY|O_APPEND` and attach a fresh buffered writer; the read
position of the new handle is the start of the file. -/
def createNewSegment (w : WalState) : WalState :=
  let fileName := w.fileNameBase ++ toString w.currentSegmentNo
  { w with files := dirSet w.files fileName (dirGet w.files fileName)
           fileName := fileName
           fileOffset := 0
           fileClosed := false
           fileIsNil := false
           buf := [] }

/-- `openExistingSegment`: glob `<logFileNamePrefix>*`, `sort.Strings`, take
the last name, open it `O_WRONLY|O_APPEND` and `Seek(0, io.SeekEnd)`, then
recover the segment number as `strconv.Atoi(strings.Split(name, "-")[2])`
(an out-of-range index models the Go panic when the split yields fewer
than three parts). -/
def openExistingSegment (w : WalState) : Except String WalState :=
  let logFiles := (w.files.map Prod.fst).filter (fun n => strHasStart n w.fileNameBase)
  let sorted := sortStrings logFiles
  match sorted.getLast? with
  | none => .error "runtime error: index out of range"
  | some lastFileName =>
    let s := strSplitChar lastFileName '-'
    match s[2]? with
    | none => .error "runtime error: index out of range"
    | some part =>
      match atoi part with
      | .error e => .error e
      | .ok lastSegmentNo =>
        .ok { w with fileName := lastFileName
                     fileOffset := (dirGet w.files lastFileName).length
                     fileClosed := false
                     fileIsNil := false
                     buf := []
                     currentSegmentNo := lastSegmentNo }

/-- `openExistingOrCreateSegment`: `MkdirAll`, then create the first
segment in an empty directory or open the newest existing one. -/
def openExistingOrCreateSegment (w : WalState) : Except String WalState :=
  if checkEmptyDir w.files then .ok (createNewSegment w) else openExistingSegment w

/-- The shared tail of `Open` in both drafts: discover or create the
active segment, then establish `lastSeqNo` through the recovery scanner —
which reads the write-only segment handle and therefore always errors, so
`Open` always fails with `failed to get last sequence number: read <name>:
bad file descriptor` (wal.go lines 43-45 and the newer draft alike). -/
def openWal (w0 : WalState) : Except String WalState :=
  match openExistingOrCreateSegment w0 with
  | .error s => .error s
  | .ok w1 =>
    match getLastSeqNo w1.fileName (dirGet w1.files w1.fileName) w1.fileOffset with
    | .error s => .error ("failed to get last sequence number: " ++ s)
    | .ok n => .ok { w1 with lastSeqNo := n }

/-! ## The older engine draft (`internal/wal.go`) -/

namespace WalOld

/-- `Open` (older draft, internal/wal.go lines 20-50) on a directory with
the given contents and an explicit log directory; the remaining
configuration fields do not affect the behaviour embedded here. -/
def openEngine (logDir : String) (files : List (String × List Nat)) :
    Except String WalState :=
  openWal
    { files := files
      fileNameBase := logDir ++ segmentTag
      fileName := ""
      fileOffset := 0
      fileClosed := false
      fileIsNil := true
      buf := []
      lastSeqNo := 0
      currentSegmentNo := 1
      maxLogFileSize := 16 * 1024 * 1024
      ctxCancelled := false }

/-- `Write` (older draft, lines 53-64): no closed-state check and no
rotation check; `lastSeqNo` is incremented (uint64) before anything else,
the record checksum is `crc32.ChecksumIEEE(append(data, byte(lastSeqNo)))`,
and the frame goes to `WriteIntoBuffer`. -/
def write (w : WalState) (data : List Nat) : Except String Unit × WalState :=
  let seq := (w.lastSeqNo + 1) % 2 ^ 64
  let w1 := { w with lastSeqNo := seq }
  writeIntoBuffer w1 ⟨seq, data, crc32 (data ++ [byteOf seq]), none⟩

/-- `ReadAll` (older draft, lines 101-138): reopen the active segment by
name (an independent read handle at offset 0) and run the loop that
verifies `crc32.ChecksumIEEE(entry.GetData())` only. -/
def readAll (w : WalState) : Except String (List Entry) :=
  if dirHas w.files w.fileName then readLoopOld (dirGet w.files w.fileName) []
  else .error "open: no such file or directory"

/-- `Close` (older draft, lines 174-183): cancel the context, final `Sync`,
reset the ticker, close the file handle.  `wal.file` stays non-nil. -/
def close (w : WalState) : Except String Unit × WalState :=
  let w0 := { w with ctxCancelled := true }
  match sync w0 with
  | (.error s, w1) => (.error s, w1)
  | (.ok _, w1) =>
    if w1.fileClosed then (.error "file already closed", w1)
    else (.ok (), { w1 with fileClosed := true })

end WalOld

/-! ## The newer engine draft (bundled in `README.md`) -/

namespace WalNew

/-- Modelled from the spec: `should_rotate(current_size,
incoming_frame_size, max_segment_size)`.  `checkRotateLog` is called by
`writeEntry` in the newer draft but its definition is missing from the
sources; per the spec it is true exactly when appending the incoming frame
would exceed the configured maximum segment size (`maxLogFileSize`, the
per-segment cap).  The current size counts the bytes already appended to
the active segment, on disk plus still buffered; the incoming frame is
sized as the frame the write would produce. -/
def checkRotateLog (w : WalState) (data : List Nat) : Bool :=
  let currentSize := (dirGet w.files w.fileName).length + w.buf.length
  let nextSeq := (w.lastSeqNo + 1) % 2 ^ 64
  let entrySize :=
    (frameOf (marshalEntry ⟨nextSeq, data, crc32 (data ++ [byteOf nextSeq]), none⟩)).length
  decide ((currentSize + entrySize : Int) > w.maxLogFileSize)

/-- Modelled from the spec: `rotate(dir, next_segment_no)`.  `rotateLog` is
called by `writeEntry` in the newer draft but its definition is missing
from the sources; per the spec it flushes and syncs the currently active
segment (sealing it), then creates and switches to a new segment numbered
one greater than the previous maximum (the active segment's number, since
segment numbers only grow).  Rotation never deletes or truncates the
sealed segment. -/
def rotateLog (w : WalState) : Except String Unit × WalState :=
  match sync w with
  | (.error s, w1) => (.error s, w1)
  | (.ok _, w1) =>
    let nextSegmentNo := w1.currentSegmentNo + 1
    let fileName := w1.fileNameBase ++ toString nextSegmentNo
    (.ok (), { w1 with files := dirSet w1.files fileName (dirGet w1.files fileName)
                       fileName := fileName
                       fileOffset := 0
                       buf := []
                       currentSegmentNo := nextSegmentNo
                       fileClosed := false
                       fileIsNil := false })

/-- `writeEntry` (newer draft, README.md lines 430-461): reject when the
engine is closed (`wal.file == nil || wal.ctx.Err() != nil`); then, if
rotation is needed, a synchronous `Sync` followed by `rotateLog`; then
increment `lastSeqNo`, build the record with checksum over
`append(data, byte(lastSeqNo))`; a checkpoint write performs another
`Sync` before marking the record; finally `WriteIntoBuffer`. -/
def writeEntry (w : WalState) (data : List Nat) (isCheckpoint : Bool) :
    Except String Unit × WalState :=
  if w.fileIsNil || w.ctxCancelled then (.error "WAL is closed, cannot write data", w)
  else
    let step1 : Except String Unit × WalState :=
      if checkRotateLog w data then
        match sync w with
        | (.error s, w1) => (.error ("Couldnt rotate log, error in syncing " ++ s), w1)
        | (.ok _, w1) => rotateLog w1
      else (.ok (), w)
    match step1 with
    | (.error s, w1) => (.error s, w1)
    | (.ok _, w1) =>
      let seq := (w1.lastSeqNo + 1) % 2 ^ 64
      let w2 := { w1 with lastSeqNo := seq }
      let base : Entry := ⟨seq, data, crc32 (data ++ [byteOf seq]), none⟩
      if isCheckpoint then
        match sync w2 with
        | (.error s, w3) => (.error ("Couldnt create checkpoint, error in syncing " ++ s), w3)
        | (.ok _, w3) => writeIntoBuffer w3 { base with isCheckpoint := some true }
      else writeIntoBuffer w2 base

/-- `Write`. -/
def write (w : WalState) (data : List Nat) : Except String Unit × WalState :=
  writeEntry w data false

/-- `WriteWithCheckpoint`. -/
def writeWithCheckpoint (w : WalState) (data : List Nat) : Except String Unit × WalState :=
  writeEntry w data true

/-- `readAllEntries` (newer draft, README.md lines 493-529): reopen the
active segment by name (`os.Open(wal.file.Name())`, a nil handle would
dereference nil) and run the loop that verifies
`crc32.ChecksumIEEE(append(entry.GetData(), byte(entry.GetLogSeqNo())))`
and, when `fromCheckpoint` is set, resets the accumulator at every
checkpoint record. -/
def readAllEntries (w : WalState) (fromCheckpoint : Bool) : Except String (List Entry) :=
  if w.fileIsNil then .error "invalid memory address or nil pointer dereference"
  else if dirHas w.files w.fileName then
    readLoopNew fromCheckpoint (dirGet w.files w.fileName) []
  else .error "open: no such file or directory"

/-- `ReadAll`. -/
def readAll (w : WalState) : Except String (List Entry) := readAllEntries w false

/-- `ReadFromCheckPoint`. -/
def readFromCheckPoint (w : WalState) : Except String (List Entry) := readAllEntries w true

/-- `Open` (newer draft, README.md lines 389-419): normalize the
configuration through `initConfig`, then discover/create the segment and
recover the last sequence number. -/
def openEngine (config : Option Options) (files : List (String × List Nat)) :
    Except String WalState :=
  let c := initConfig config
  openWal
    { files := files
      fileNameBase := c.LogDir ++ segmentTag
      fileName := ""
      fileOffset := 0
      fileClosed := false
      fileIsNil := true
      buf := []
      lastSeqNo := 0
      currentSegmentNo := 1
      maxLogFileSize := c.MaxLogFileSize
      ctxCancelled := false }

/-- `Close` (newer draft): cancel the context, final `Sync`, close the
handle and set `wal.file = nil`. -/
def close (w : WalState) : Except String Unit × WalState :=
  let w0 := { w with ctxCancelled := true }
  match sync w0 with
  | (.error s, w1) => (.error s, w1)
  | (.ok _, w1) =>
    if w1.fileClosed then (.error "file already closed", { w1 with fileIsNil := true })
    else (.ok (), { w1 with fileClosed := true, fileIsNil := true })

end WalNew


deriving instance DecidableEq for Except

/-! ## Helper: sequencing engine steps through `Except` -/

/-- Run one state-mutating engine call, propagating its error. -/
def runStep (f : WalState → Except String Unit × WalState)
    (r : Except String WalState) : Except String WalState :=
  r.bind (fun w =>
    match f w with
    | (.ok _, w1) => .ok w1
    | (.error s, _) => .error s)

/-! ## Directory and buffer lemmas -/

theorem dirGet_dirSet_self (fs : List (String × List Nat)) (n : String) (v : List Nat) :
    dirGet (dirSet fs n v) n = v := by
  induction fs with
  | nil => simp [dirGet, dirSet, List.find?]
  | cons p rest ih =>
    by_cases h : p.1 == n
    · simp [dirSet, h, dirGet, List.find?]
    · simp only [dirSet, h, Bool.false_eq_true, if_false, dirGet, List.find?]
      simpa [dirGet] using ih

theorem dirGet_dirSet_ne (fs : List (String × List Nat)) (n m : String) (v : List Nat)
    (h : m ≠ n) : dirGet (dirSet fs n v) m = dirGet fs m := by
  have hnm : (n == m) = false := by
    simp only [beq_eq_false_iff_ne, ne_eq]
    exact fun hh => h hh.symm
  induction fs with
  | nil => simp [dirGet, dirSet, List.find?, hnm]
  | cons p rest ih =>
    by_cases hp : p.1 == n
    · have hpn := eq_of_beq hp
      have hpm : (p.1 == m) = false := by rw [hpn]; exact hnm
      simp [dirSet, hp, dirGet, List.find?, hpm, hnm]
    · simp only [dirSet, hp, Bool.false_eq_true, if_false, dirGet, List.find?]
      by_cases hm : p.1 == m
      · simp [hm]
      · simp only [hm, Bool.false_eq_true, if_false]
        simpa [dirGet] using ih

theorem dirHas_dirSet_mono (fs : List (String × List Nat)) (n m : String) (v : List Nat)
    (h : dirHas fs m = true) : dirHas (dirSet fs n v) m = true := by
  induction fs with
  | nil => simp [dirHas, List.find?] at h
  | cons p rest ih =>
    by_cases hp : p.1 == n
    · have hpn := eq_of_beq hp
      by_cases hm : p.1 == m
      · have hnm : (n == m) = true := by rw [← hpn]; exact hm
        simp [dirSet, hp, dirHas, List.find?, hnm]
      · have hnm : (n == m) = false := by
          rw [← hpn]
          simpa using hm
        simp only [dirHas, List.find?, hm, Bool.false_eq_true, if_false] at h
        simp only [dirSet, hp, if_true, dirHas, List.find?, hnm, Bool.false_eq_true, if_false]
        simpa [dirHas] using h
    · simp only [dirSet, hp, Bool.false_eq_true, if_false, dirHas, List.find?]
      by_cases hm : p.1 == m
      · simp [hm]
      · simp only [hm, Bool.false_eq_true, if_false]
        simp only [dirHas, List.find?, hm, Bool.false_eq_true, if_false] at h
        simpa [dirHas] using ih h

theorem dirHas_dirSet_self (fs : List (String × List Nat)) (n : String) (v : List Nat) :
    dirHas (dirSet fs n v) n = true := by
  induction fs with
  | nil => simp [dirHas, dirSet, List.find?]
  | cons p rest ih =>
    by_cases h : p.1 == n
    · simp [dirSet, h, dirHas, List.find?]
    · simp only [dirSet, h, Bool.false_eq_true, if_false, dirHas, List.find?]
      simpa [dirHas] using ih

theorem bufWrite_stream (w : WalState) (bs : List Nat) (hcl : w.fileClosed = false) :
    (bufWrite w bs).1 = .ok ()
  ∧ curContent (bufWrite w bs).2 ++ (bufWrite w bs).2.buf = curContent w ++ w.buf ++ bs
  ∧ (bufWrite w bs).2.fileName = w.fileName
  ∧ (bufWrite w bs).2.fileClosed = w.fileClosed
  ∧ (bufWrite w bs).2.fileIsNil = w.fileIsNil
  ∧ (bufWrite w bs).2.lastSeqNo = w.lastSeqNo
  ∧ (bufWrite w bs).2.currentSegmentNo = w.currentSegmentNo
  ∧ (bufWrite w bs).2.fileNameBase = w.fileNameBase
  ∧ (bufWrite w bs).2.maxLogFileSize = w.maxLogFileSize
  ∧ (bufWrite w bs).2.ctxCancelled = w.ctxCancelled
  ∧ (∀ m, m ≠ w.fileName → dirGet (bufWrite w bs).2.files m = dirGet w.files m)
  ∧ (∀ m, dirHas w.files m = true → dirHas (bufWrite w bs).2.files m = true) := by
  unfold bufWrite diskAppend curContent
  split_ifs with h1 h2 h3 <;>
    simp_all [dirGet_dirSet_self, dirGet_dirSet_ne, dirHas_dirSet_mono, List.append_assoc]



theorem sync_stream (w : WalState) (hcl : w.fileClosed = false) :
    (sync w).1 = .ok ()
  ∧ curContent (sync w).2 = curContent w ++ w.buf
  ∧ (sync w).2.buf = []
  ∧ (sync w).2.fileName = w.fileName
  ∧ (sync w).2.fileClosed = w.fileClosed
  ∧ (sync w).2.fileIsNil = w.fileIsNil
  ∧ (sync w).2.lastSeqNo = w.lastSeqNo
  ∧ (sync w).2.currentSegmentNo = w.currentSegmentNo
  ∧ (sync w).2.fileNameBase = w.fileNameBase
  ∧ (sync w).2.maxLogFileSize = w.maxLogFileSize
  ∧ (sync w).2.ctxCancelled = w.ctxCancelled
  ∧ (∀ m, m ≠ w.fileName → dirGet (sync w).2.files m = dirGet w.files m)
  ∧ (∀ m, dirHas w.files m = true → dirHas (sync w).2.files m = true) := by
  unfold sync bufFlush fileSync diskAppend curContent
  split_ifs with h1 h2 <;>
    simp_all [dirGet_dirSet_self, dirGet_dirSet_ne, dirHas_dirSet_mono]

theorem writeIntoBuffer_stream (w : WalState) (e : Entry) (hcl : w.fileClosed = false) :
    (writeIntoBuffer w e).1 = .ok ()
  ∧ curContent (writeIntoBuffer w e).2 ++ (writeIntoBuffer w e).2.buf
      = curContent w ++ w.buf ++ frameOf (marshalEntry e)
  ∧ (writeIntoBuffer w e).2.fileName = w.fileName
  ∧ (writeIntoBuffer w e).2.fileClosed = w.fileClosed
  ∧ (writeIntoBuffer w e).2.fileIsNil = w.fileIsNil
  ∧ (writeIntoBuffer w e).2.lastSeqNo = w.lastSeqNo
  ∧ (writeIntoBuffer w e).2.currentSegmentNo = w.currentSegmentNo
  ∧ (writeIntoBuffer w e).2.fileNameBase = w.fileNameBase
  ∧ (writeIntoBuffer w e).2.maxLogFileSize = w.maxLogFileSize
  ∧ (writeIntoBuffer w e).2.ctxCancelled = w.ctxCancelled
  ∧ (∀ m, m ≠ w.fileName → dirGet (writeIntoBuffer w e).2.files m = dirGet w.files m)
  ∧ (∀ m, dirHas w.files m = true → dirHas (writeIntoBuffer w e).2.files m = true) := by
  simp only [writeIntoBuffer]
  obtain ⟨h1ok, h1s, h1f, h1c, h1n, h1seq, h1seg, h1b, h1m, h1ctx, h1o, h1h⟩ :=
    bufWrite_stream w (putUint32LE ((marshalEntry e).length % 2 ^ 32)) hcl
  have hpair : bufWrite w (putUint32LE ((marshalEntry e).length % 2 ^ 32))
      = (.ok (), (bufWrite w (putUint32LE ((marshalEntry e).length % 2 ^ 32))).2) := by
    rw [← h1ok]
  rw [hpair]
  obtain ⟨h2ok, h2s, h2f, h2c, h2n, h2seq, h2seg, h2b, h2m, h2ctx, h2o, h2h⟩ :=
    bufWrite_stream (bufWrite w (putUint32LE ((marshalEntry e).length % 2 ^ 32))).2
      (marshalEntry e) (by rw [h1c]; exact hcl)
  refine ⟨h2ok, ?_, by rw [h2f, h1f], by rw [h2c, h1c], by rw [h2n, h1n],
    by rw [h2seq, h1seq], by rw [h2seg, h1seg], by rw [h2b, h1b], by rw [h2m, h1m],
    by rw [h2ctx, h1ctx], ?_, ?_⟩
  · rw [h2s, h1s, frameOf]
    simp [List.append_assoc]
  · intro m hm
    rw [h2o m (by rw [h1f]; exact hm), h1o m hm]
  · intro m hm
    exact h2h m (h1h m hm)



/-! ## Decoding a file of well-formed frames -/

/-- A record as the newer draft's write path produces it: the checksum
covers the payload followed by the low sequence-number byte, the payload is
genuine bytes of bounded length, and the sequence number fits in 64 bits. -/
def GoodEntryNew (e : Entry) : Prop :=
  e.checksum = crc32 (e.data ++ [byteOf e.logSeqNo])
    ∧ IsBytes e.data ∧ e.logSeqNo < 2 ^ 64 ∧ e.data.length < 2 ^ 20

instance (e : Entry) : Decidable (GoodEntryNew e) := by
  unfold GoodEntryNew IsBytes
  infer_instance

theorem getUint32LE_putUint32LE (n : Nat) (h : n < 2 ^ 32) :
    getUint32LE (n % 256) (n / 2 ^ 8 % 256) (n / 2 ^ 16 % 256) (n / 2 ^ 24 % 256) = n := by
  unfold getUint32LE
  omega

set_option maxRecDepth 4096 in
theorem crc32_single_ne_zero : ∀ b < 256, crc32 [b] ≠ 0 := by decide


theorem marshalEntry_ne_nil (e : Entry) (hg : GoodEntryNew e) : marshalEntry e ≠ [] := by
  obtain ⟨hck, hbytes, h64, hlen⟩ := hg
  unfold marshalEntry
  intro hnil
  by_cases hs : e.logSeqNo = 0
  · by_cases hd : e.data = []
    · by_cases hc : e.checksum = 0
      · rw [hd, hs] at hck
        rw [hc] at hck
        simp only [byteOf, Nat.zero_mod, List.nil_append] at hck
        exact crc32_single_ne_zero 0 (by norm_num) hck.symm
      · simp [hs, hd, hc] at hnil
    · simp [hs, hd] at hnil
  · simp [hs] at hnil

theorem encodeFrames_cons_length (e : Entry) (rest : List Entry) :
    (encodeFrames (e :: rest)).length
      = 4 + (marshalEntry e).length + (encodeFrames rest).length := by
  show (frameOf (marshalEntry e) ++ encodeFrames rest).length = _
  simp [frameOf, putUint32LE, List.length_append]
  omega

theorem readLoopNewAux_frames (fc : Bool) (es : List Entry) :
    ∀ (fuel : Nat) (acc : List Entry), (∀ e ∈ es, GoodEntryNew e) →
    (encodeFrames es).length ≤ fuel →
    readLoopNewAux fc fuel (encodeFrames es) acc
      = .ok (es.foldl (fun a e => (if fc && e.getIsCheckpoint then [] else a) ++ [e]) acc) := by
  induction es with
  | nil =>
    intro fuel acc _ _
    cases fuel <;> simp [encodeFrames, readLoopNewAux]
  | cons e rest ih =>
    intro fuel acc hgood hfuel
    have hg : GoodEntryNew e := hgood e (by simp)
    obtain ⟨hck, hbytes, h64, hlen⟩ := hg
    have h32 : e.checksum < 2 ^ 32 := by
      rw [hck]
      apply crc32_lt
      intro b hb
      rcases List.mem_append.mp hb with h | h
      · exact hbytes b h
      · simp only [byteOf, List.mem_singleton] at h
        omega
    have hmlen : (marshalEntry e).length ≤ e.data.length + 25 :=
      marshalEntry_length_le e h64 h32 (by norm_num at hlen ⊢; omega)
    have hmlt : (marshalEntry e).length < 2 ^ 32 := by norm_num at hlen ⊢; omega
    have hmod : (marshalEntry e).length % 2 ^ 32 = (marshalEntry e).length :=
      Nat.mod_eq_of_lt hmlt
    have hnn : marshalEntry e ≠ [] := marshalEntry_ne_nil e ⟨hck, hbytes, h64, hlen⟩
    have hclen := encodeFrames_cons_length e rest
    obtain ⟨f1, rfl⟩ : ∃ f1, fuel = f1 + 1 := ⟨fuel - 1, by omega⟩
    have hstep : encodeFrames (e :: rest) = frameOf (marshalEntry e) ++ encodeFrames rest := rfl
    rw [hstep, frameOf, hmod, putUint32LE]
    simp only [List.cons_append, List.nil_append]
    rw [readLoopNewAux]
    have hsize : getUint32LE ((marshalEntry e).length % 256)
        ((marshalEntry e).length / 2 ^ 8 % 256) ((marshalEntry e).length / 2 ^ 16 % 256)
        ((marshalEntry e).length / 2 ^ 24 % 256) = (marshalEntry e).length :=
      getUint32LE_putUint32LE _ hmlt
    simp only [hsize]
    have hcond : ¬((marshalEntry e).length ≠ 0 ∧ marshalEntry e ++ encodeFrames rest = []) := by
      rintro ⟨-, habs⟩
      exact hnn (List.append_eq_nil.mp habs).1
    rw [if_neg hcond]
    have htk : (marshalEntry e ++ encodeFrames rest).take (marshalEntry e).length
        = marshalEntry e := List.take_left _ _
    have hdr : (marshalEntry e ++ encodeFrames rest).drop (marshalEntry e).length
        = encodeFrames rest := List.drop_left _ _
    have hrep : (marshalEntry e).length - (marshalEntry e ++ encodeFrames rest).length = 0 := by
      simp [List.length_append]
    simp only [htk, hdr, hrep, List.replicate_zero, List.append_nil]
    rw [unmarshalEntry_marshalEntry e h64 h32 (by norm_num at hlen ⊢; omega)]
    simp only [hck, bne_self_eq_false, Bool.false_eq_true, if_false, ite_false]
    rw [ih f1 _ (fun x hx => hgood x (by simp [hx])) (by rw [hclen] at hfuel; omega)]
    simp [List.foldl_cons]

/-- Decoding a segment that holds exactly the frames of well-formed
records yields the loop's accumulator semantics. -/
theorem readLoopNew_frames (fc : Bool) (es : List Entry) :
    ∀ acc, (∀ e ∈ es, GoodEntryNew e) →
    readLoopNew fc (encodeFrames es) acc
      = .ok (es.foldl (fun a e => (if fc && e.getIsCheckpoint then [] else a) ++ [e]) acc) :=
  fun acc h => readLoopNewAux_frames fc es _ acc h (le_refl _)

/-- Spec-side description of `ReadFromCheckpoint`'s result (`checkpointSuffix`):
walking the record list from the most recent end, keep records until the
first checkpoint record, inclusive; the whole list when no checkpoint
exists.  Stated over the reversed list. -/
def suffixFromLastCpRev : List Entry → List Entry
  | [] => []
  | e :: rest => if e.getIsCheckpoint then [e] else e :: suffixFromLastCpRev rest

/-- The records from the most recent checkpoint (inclusive) through the end
of the segment; all records when no checkpoint exists.  This follows the
spec's words, to be compared against the engine's accumulator loop. -/
def checkpointSuffix (es : List Entry) : List Entry :=
  (suffixFromLastCpRev es.reverse).reverse

theorem suffixFromLastCpRev_no_cp (l : List Entry)
    (h : l.all (fun e => !e.getIsCheckpoint)) : suffixFromLastCpRev l = l := by
  induction l with
  | nil => rfl
  | cons e rest ih =>
    simp only [List.all_cons, Bool.and_eq_true, Bool.not_eq_true'] at h
    simp [suffixFromLastCpRev, h.1, ih (by
      rw [List.all_eq_true]
      intro x hx
      have h2 := h.2
      rw [List.all_eq_true] at h2
      simpa using h2 x hx)]

theorem checkpointSuffix_no_cp (es : List Entry)
    (h : es.any (fun e => e.getIsCheckpoint) = false) : checkpointSuffix es = es := by
  unfold checkpointSuffix
  rw [suffixFromLastCpRev_no_cp, List.reverse_reverse]
  rw [List.all_eq_true]
  intro x hx
  simp only [List.mem_reverse] at hx
  simp only [List.any_eq_false] at h
  simpa using h x hx

theorem foldl_snoc_eq (es : List Entry) :
    ∀ acc : List Entry, es.foldl (fun a e => a ++ [e]) acc = acc ++ es := by
  induction es with
  | nil => intro acc; simp
  | cons e rest ih => intro acc; simp [List.foldl_cons, ih, List.append_assoc]

theorem foldl_checkpoint (es : List Entry) :
    ∀ acc, es.foldl (fun a e => (if e.getIsCheckpoint then [] else a) ++ [e]) acc
      = if es.any (fun e => e.getIsCheckpoint) then checkpointSuffix es else acc ++ es := by
  induction es using List.reverseRecOn with
  | nil => intro acc; simp
  | append_singleton es x ih =>
    intro acc
    rw [List.foldl_append]
    simp only [List.foldl_cons, List.foldl_nil]
    by_cases hx : x.getIsCheckpoint
    · simp [hx, checkpointSuffix, suffixFromLastCpRev, List.any_append]
    · rw [ih]
      by_cases ha : es.any (fun e => e.getIsCheckpoint)
      · simp [hx, ha, checkpointSuffix, suffixFromLastCpRev, List.any_append]
      · simp [hx, ha, checkpointSuffix, suffixFromLastCpRev, List.any_append,
          List.append_assoc, suffixFromLastCpRev_no_cp]


/-- `Open`'s shared tail can never succeed: whenever discovery yields a
segment, the recovery scan on the write-only handle errors, and `openWal`
returns the wrapped error. -/
theorem openWal_never_ok (w0 w' : WalState) : openWal w0 ≠ .ok w' := by
  unfold openWal
  cases openExistingOrCreateSegment w0 <;>
    simp [getLastSeqNo, getLastEntryInSegment]

/-- A `WriteIntoBuffer` whose whole frame fits in the remaining buffer
space only appends to the buffer: no flush, no file access, no error —
regardless of every other field of the state, the closed flag included. -/
theorem writeIntoBuffer_fits (w : WalState) (e : Entry)
    (h : w.buf.length + 4 + (marshalEntry e).length ≤ bufCap) :
    writeIntoBuffer w e = (.ok (), { w with buf := w.buf ++ frameOf (marshalEntry e) }) := by
  unfold writeIntoBuffer bufWrite
  simp only [putUint32LE, List.length_cons, List.length_nil, List.length_append]
  rw [if_pos (by unfold bufCap at h ⊢; omega)]
  simp only [List.append_assoc]
  rw [if_pos (by unfold bufCap at h ⊢; simp [List.length_append]; omega)]
  simp [frameOf, putUint32LE, List.append_assoc]

/-! ## The claims -/

set_option maxRecDepth 10000

/-- The engine state a successful fresh open of an empty `wal-data/`
directory would have produced: one empty segment, handle open at offset
0, empty buffer, sequence number 0.  `Open` itself never reaches this
state — recovery on the write-only handle fails first — so it is built
directly to exercise the write/read paths. -/
def c1w : WalState :=
  { files := [("wal-data/segment-1", [])]
    fileNameBase := "wal-data/" ++ segmentTag
    fileName := "wal-data/segment-1"
    fileOffset := 0
    fileClosed := false
    fileIsNil := false
    buf := []
    lastSeqNo := 0
    currentSegmentNo := 1
    maxLogFileSize := 16 * 1024 * 1024
    ctxCancelled := false }

/-- C1.  Round-trip: for every N ≥ 1 and every sequence of N writes on a
freshly opened log (no rotation), Sync followed by ReadAll should return
exactly those N records in order.  The cited code violates this twice
over.  First, the round-trip cannot even start: at the claim's input — a
fresh `Open` of an empty directory — recovery reads the write-only
segment handle, so `Open` fails with the bad-file-descriptor error and no
`Write` or `ReadAll` is ever reached (first conjunct).  Second, the write
and read paths disagree regardless: on the engine state a successful open
would have produced (`c1w`, built directly), one `Write` of `[5]`
followed by `Sync` leaves on disk exactly the frame whose stored checksum
is `crc32(payload ++ [low byte of seq])` (third conjunct), yet `ReadAll`
recomputes `crc32(payload)` only and rejects it with a CRC error instead
of returning the record (second conjunct) — the repository's own
round-trip test expects success here. -/
theorem c1_write_readAll_crc_mismatch :
    WalOld.openEngine "wal-data/" []
      = .error "failed to get last sequence number: read wal-data/segment-1: bad file descriptor"
  ∧ (runStep sync (runStep (fun w => WalOld.write w [5]) (.ok c1w))).bind WalOld.readAll
      = .error "CRC mismatch for entry with seq no 1"
  ∧ (runStep sync (runStep (fun w => WalOld.write w [5])
        (.ok c1w))).map (fun w => dirGet w.files w.fileName)
      = .ok (frameOf (marshalEntry ⟨1, [5], crc32 ([5] ++ [byteOf 1]), none⟩)) := by
  refine ⟨by decide, by decide, by decide⟩

/-- C2.  The claim says every read path recomputes the checksum over
`payload ++ [low byte of seq]`.  The record below is exactly what the
write path produces for payload `[5]` at sequence number 1.
`verifyChecksum` — the only checksum check the recovery scan would apply —
compares against `crc32(payload)` alone and rejects it (first conjunct);
the older draft's `ReadAll` loop likewise recomputes over the payload
alone and rejects it (second conjunct).  The recovery scan itself never
even reaches a checksum: it reads the write-only segment handle and fails
with the bad-file-descriptor error on every input (third conjunct), so no
read path performs the claimed seq-byte recomputation. -/
theorem c2_read_verification_omits_seq_byte :
    verifyChecksum ⟨1, [5], crc32 ([5] ++ [byteOf 1]), none⟩ = false
  ∧ readLoopOld (frameOf (marshalEntry ⟨1, [5], crc32 ([5] ++ [byteOf 1]), none⟩)) []
      = .error "CRC mismatch for entry with seq no 1"
  ∧ getLastSeqNo "wal-data/segment-1"
        (frameOf (marshalEntry ⟨1, [5], crc32 ([5] ++ [byteOf 1]), none⟩)) 0
      = .error "read wal-data/segment-1: bad file descriptor" := by
  refine ⟨by decide, by decide, by decide⟩

/-- A segment holding one well-formed frame (well-formed for the read
loops: its checksum is over the payload alone, so `verifyChecksum`
accepts it) followed by a one-byte truncated frame. -/
def c3entry : Entry := ⟨1, [7], crc32 [7], none⟩

def c3file : List Nat := frameOf (marshalEntry c3entry) ++ [5]

/-- C3 counterexample.  On a directory whose single segment holds one
well-formed frame (sequence number 1) followed by a truncated trailing
frame, the claim predicts `Open` succeeds and recovery establishes last
sequence number 1, silently discarding the partial tail.  In fact `Open`
fails: recovery reads the write-only segment handle, so `getLastSeqNo`
errors with `bad file descriptor` and `Open` returns that error — it
never succeeds, with last sequence number 1 or any other. -/
theorem c3_truncated_tail_counterexample :
    WalOld.openEngine "wal-data/" [("wal-data/segment-1", c3file)]
      = .error "failed to get last sequence number: read wal-data/segment-1: bad file descriptor"
  ∧ (∀ w1 : WalState,
      WalOld.openEngine "wal-data/" [("wal-data/segment-1", c3file)] ≠ .ok w1) := by
  constructor
  · decide
  · intro w1 h
    rw [show WalOld.openEngine "wal-data/" [("wal-data/segment-1", c3file)]
        = .error "failed to get last sequence number: read wal-data/segment-1: bad file descriptor"
      from by decide] at h
    exact Except.noConfusion h

/-- C3 amended.  Recovery can never read the segment at all: the scan goes
through the write-only segment handle (`O_WRONLY|O_APPEND`), so for every
file name, content and offset `getLastSeqNo` fails with the
bad-file-descriptor error, and `Open`'s shared tail `openWal` never
succeeds on any state.  There is no truncation tolerance, no silent
discard of a partial trailing frame, and no interior-corruption
detection, because `Open` always fails before reading a single frame. -/
theorem c3_recovery_always_fails :
    (∀ (name : String) (content : List Nat) (off : Nat),
      getLastSeqNo name content off = .error ("read " ++ name ++ ": bad file descriptor"))
  ∧ (∀ w0 w1 : WalState, openWal w0 ≠ .ok w1) := by
  constructor
  · intro name content off
    rfl
  · intro w0 w1
    exact openWal_never_ok w0 w1

/-- C4.  The claim says `Write` after `Close` yields `ClosedError` and
appends nothing.  Two failures.  First, the claim's trace cannot even
start: `Open` always fails with the bad-file-descriptor recovery error
(first conjunct), so no engine — let alone a closed one — is ever handed
out, and the repository's own `TestWriteAfterClose` fails at `Open`.
Second, `Write` itself (older draft, wal.go lines 53-64) consults no
closed or cancelled state whatsoever: on every engine state — the closed
state a completed `Close` leaves behind included — a `Write` whose frame
fits in the buffer returns no error, appends the frame to the buffered
writer, and leaves the files and the closed flag untouched (second
conjunct, quantified over all states with no assumption on `fileClosed`).
The write after close is silently accepted, not rejected. -/
theorem c4_write_after_close_not_rejected :
    WalOld.openEngine "wal-data/" []
      = .error "failed to get last sequence number: read wal-data/segment-1: bad file descriptor"
  ∧ (∀ w : WalState,
      w.buf.length + 4 + (marshalEntry ⟨(w.lastSeqNo + 1) % 2 ^ 64, [9, 9],
          crc32 ([9, 9] ++ [byteOf ((w.lastSeqNo + 1) % 2 ^ 64)]), none⟩).length ≤ bufCap →
        (WalOld.write w [9, 9]).1 = .ok ()
      ∧ (WalOld.write w [9, 9]).2.buf = w.buf ++ frameOf (marshalEntry
          ⟨(w.lastSeqNo + 1) % 2 ^ 64, [9, 9],
            crc32 ([9, 9] ++ [byteOf ((w.lastSeqNo + 1) % 2 ^ 64)]), none⟩)
      ∧ (WalOld.write w [9, 9]).2.files = w.files
      ∧ (WalOld.write w [9, 9]).2.fileClosed = w.fileClosed) := by
  constructor
  · decide
  · intro w h
    unfold WalOld.write
    rw [writeIntoBuffer_fits { w with lastSeqNo := (w.lastSeqNo + 1) % 2 ^ 64 } _ h]
    exact ⟨rfl, rfl, rfl, rfl⟩

/-- The closed engine state the write-after-close scenario describes:
handle closed, buffer flushed empty, one record on disk. -/
def c4w : WalState :=
  { files := [("wal-data/segment-1",
      frameOf (marshalEntry ⟨1, [1], crc32 ([1] ++ [byteOf 1]), none⟩))]
    fileNameBase := "wal-data/" ++ segmentTag
    fileName := "wal-data/segment-1"
    fileOffset := 0
    fileClosed := true
    fileIsNil := false
    buf := []
    lastSeqNo := 1
    currentSegmentNo := 1
    maxLogFileSize := 16 * 1024 * 1024
    ctxCancelled := true }

/-- Witness: on the concrete closed state `c4w`, the write is accepted
into the buffer with no error. -/
theorem c4_write_after_close_not_rejected_witness :
    c4w.fileClosed = true
  ∧ c4w.buf.length + 4 + (marshalEntry ⟨(c4w.lastSeqNo + 1) % 2 ^ 64, [9, 9],
      crc32 ([9, 9] ++ [byteOf ((c4w.lastSeqNo + 1) % 2 ^ 64)]), none⟩).length ≤ bufCap
  ∧ (WalOld.write c4w [9, 9]).1 = .ok ()
  ∧ (WalOld.write c4w [9, 9]).2.buf ≠ [] :=
  have h := c4_write_after_close_not_rejected.2 c4w (by decide)
  ⟨rfl, by decide, h.1, by rw [h.2.1]; decide⟩

/-- A directory with ten segment files, as ten rotations would leave it. -/
def c7files : List (String × List Nat) :=
  [("wal-data/segment-1", []), ("wal-data/segment-2", []), ("wal-data/segment-3", []),
   ("wal-data/segment-4", []), ("wal-data/segment-5", []), ("wal-data/segment-6", []),
   ("wal-data/segment-7", []), ("wal-data/segment-8", []), ("wal-data/segment-9", []),
   ("wal-data/segment-10", [])]

def c7state : WalState :=
  { files := c7files, fileNameBase := "wal-data/" ++ segmentTag, fileName := "",
    fileOffset := 0, fileClosed := false, fileIsNil := true, buf := [],
    lastSeqNo := 0, currentSegmentNo := 1, maxLogFileSize := 16 * 1024 * 1024,
    ctxCancelled := false }

/-- C7 counterexample.  With ten segments present, discovery sorts the
names as strings, so it opens `segment-9` — not `segment-10`, the
numerically highest — refuting the claim's "including ten or more
segments". -/
theorem c7_lexicographic_pick_counterexample :
    (openExistingSegment c7state).map (fun w => (w.fileName, w.currentSegmentNo))
      = .ok ("wal-data/segment-9", 9)
  ∧ (openExistingSegment c7state).map (fun w => w.fileName)
      ≠ .ok ("wal-data/" ++ segmentTag ++ toString 10) := by
  constructor <;> decide

/-- C8.  `initConfig` (the newer draft's `Open` calls it first) starts from
`DefaultConfig` and keeps the default for every zero-valued option of a
supplied configuration: empty log directory, zero segment-size cap
(`MaxLogFileSize`, the per-segment cap), zero `maxSegments`, zero sync
interval; `EnableSync`'s zero value is the default `false` itself.  The
documented default constants are `./wal_data/`, 16 MiB, sync disabled,
5 seconds. -/
theorem c8_initConfig_normalization :
    (∀ u : Options, initConfig (some u) =
      { LogDir := if u.LogDir = "" then "./wal_data/" else u.LogDir
        MaxLogFileSize := if u.MaxLogFileSize = 0 then 16 * 1024 * 1024 else u.MaxLogFileSize
        maxSegments := if u.maxSegments = 0 then 5 else u.maxSegments
        EnableSync := u.EnableSync
        SyncInterval := if u.SyncInterval = 0 then 5 * 1000000000 else u.SyncInterval })
  ∧ initConfig none = DefaultConfig
  ∧ DefaultConfig.LogDir = "./wal_data/"
  ∧ DefaultConfig.MaxLogFileSize = 16 * 1024 * 1024
  ∧ DefaultConfig.EnableSync = false
  ∧ DefaultConfig.SyncInterval = 5 * 1000000000 := by
  refine ⟨fun u => ?_, rfl, rfl, rfl, rfl, rfl⟩
  obtain ⟨L, M, mS, E, S⟩ := u
  unfold initConfig DefaultConfig
  simp only []
  split_ifs <;> cases E <;> simp_all

theorem marshalEntry_length_ge_data (e : Entry) (hd : e.data ≠ []) :
    e.data.length ≤ (marshalEntry e).length := by
  unfold marshalEntry
  cases e.isCheckpoint <;> split_ifs <;> simp_all [List.length_append] <;> omega

theorem bufWrite_lastSeqNo (w : WalState) (bs : List Nat) :
    ((bufWrite w bs).2).lastSeqNo = w.lastSeqNo := by
  unfold bufWrite diskAppend
  split_ifs <;> rfl

theorem writeIntoBuffer_lastSeqNo (w : WalState) (e : Entry) :
    ((writeIntoBuffer w e).2).lastSeqNo = w.lastSeqNo := by
  simp only [writeIntoBuffer]
  split
  · rename_i s w1 heq
    have h := bufWrite_lastSeqNo w (putUint32LE ((marshalEntry e).length % 2 ^ 32))
    rw [heq] at h
    simpa using h
  · rename_i u w1 heq
    have h := bufWrite_lastSeqNo w (putUint32LE ((marshalEntry e).length % 2 ^ 32))
    rw [heq] at h
    simp only [] at h ⊢
    rw [bufWrite_lastSeqNo w1 (marshalEntry e)]
    simpa using h

/-- C9 amended: `Write` (older draft, and the newer draft behaves the
same) increments `lastSeqNo` before the frame is encoded or appended; the
resulting state carries the incremented value whether the call succeeds or
fails — it is never rolled back. -/
theorem c9_lastSeqNo_always_incremented (w : WalState) (data : List Nat) :
    ((WalOld.write w data).2).lastSeqNo = (w.lastSeqNo + 1) % 2 ^ 64 := by
  unfold WalOld.write
  rw [writeIntoBuffer_lastSeqNo]

theorem writeIntoBuffer_closed_empty_big (w : WalState) (e : Entry)
    (hcl : w.fileClosed = true) (hb : w.buf = [])
    (hbig : 4096 < 4 + (marshalEntry e).length) :
    (writeIntoBuffer w e).1 = .error "file already closed" := by
  unfold writeIntoBuffer bufWrite bufCap
  simp only [hb, putUint32LE, List.nil_append, List.length_cons, List.length_nil]
  norm_num
  rw [if_neg (by omega : ¬ (4 + (marshalEntry e).length ≤ 4096)), if_pos hcl]


/-- A closed engine state with one flushed record and `lastSeqNo` 1 — the
state the claim's close-then-write scenario describes.  (No run of the
program reaches any engine state, since `Open` always fails on the
write-only handle; the counterexample is about the `Write` function the
claim quantifies over.) -/
def c9wc : WalState :=
  { files := [("wal-data/segment-1",
      frameOf (marshalEntry ⟨1, [1], crc32 ([1] ++ [byteOf 1]), none⟩))]
    fileNameBase := "wal-data/" ++ segmentTag
    fileName := "wal-data/segment-1"
    fileOffset := 0
    fileClosed := true
    fileIsNil := false
    buf := []
    lastSeqNo := 1
    currentSegmentNo := 1
    maxLogFileSize := 16 * 1024 * 1024
    ctxCancelled := true }

/-- `Write` (older draft) always carries the incremented sequence number
in its resulting state, whatever the outcome. -/
theorem writeOld_lastSeqNo (w : WalState) (data : List Nat) :
    ((WalOld.write w data).2).lastSeqNo = (w.lastSeqNo + 1) % 2 ^ 64 := by
  unfold WalOld.write
  rw [writeIntoBuffer_lastSeqNo]

/-- C9 counterexample.  On the closed engine state `c9wc`, a `Write` with
a payload larger than the 4096-byte `bufio` buffer forces the buffered
writer to flush into the closed file and the call returns an error — yet
`lastSeqNo` has already been incremented from 1 to 2, refuting "the
last-assigned sequence number is the same after the call as it was
before". -/
theorem c9_failed_write_counterexample :
    c9wc.fileClosed = true
  ∧ c9wc.lastSeqNo = 1
  ∧ (WalOld.write c9wc (List.replicate 4100 7)).1 = .error "file already closed"
  ∧ (WalOld.write c9wc (List.replicate 4100 7)).2.lastSeqNo = 2 := by
  have hbig : ∀ (q ck : Nat) (cp : Option Bool),
      4096 < 4 + (marshalEntry ⟨q, List.replicate 4100 7, ck, cp⟩).length := by
    intro q ck cp
    have h := marshalEntry_length_ge_data ⟨q, List.replicate 4100 7, ck, cp⟩ (by
      intro habs
      have hl := congrArg List.length habs
      simp only [List.length_replicate, List.length_nil] at hl
      omega)
    simp only [List.length_replicate] at h
    omega
  refine ⟨rfl, rfl, ?_, ?_⟩
  · unfold WalOld.write
    apply writeIntoBuffer_closed_empty_big
    · rfl
    · rfl
    · exact hbig _ _ _
  · rw [writeOld_lastSeqNo]
    rfl


end MiniWal
namespace MiniWal

theorem dirGet_dirSet_refresh (fs : List (String × List Nat)) (n m : String) :
    dirGet (dirSet fs n (dirGet fs n)) m = dirGet fs m := by
  by_cases h : m = n
  · subst h
    rw [dirGet_dirSet_self]
  · rw [dirGet_dirSet_ne _ _ _ _ h]

theorem sync_nop (w : WalState) (hb : w.buf = []) (hcl : w.fileClosed = false) :
    sync w = (.ok (), w) := by
  unfold sync bufFlush fileSync
  simp [hb, hcl]

theorem sync_eq (w : WalState) (hcl : w.fileClosed = false) :
    sync w = (.ok (), (sync w).2) := by
  rw [← (sync_stream w hcl).1]

/-- The state `rotateLog` produces (when the handle is open). -/
def rotatedState (w : WalState) : WalState :=
  let w1 := (sync w).2
  let nn := w1.fileNameBase ++ toString (w1.currentSegmentNo + 1)
  { w1 with files := dirSet w1.files nn (dirGet w1.files nn)
            fileName := nn
            fileOffset := 0
            buf := []
            currentSegmentNo := w1.currentSegmentNo + 1
            fileClosed := false
            fileIsNil := false }

theorem rotateLog_eq (w : WalState) (hcl : w.fileClosed = false) :
    WalNew.rotateLog w = (.ok (), rotatedState w) := by
  have hsw := sync_eq w hcl
  unfold WalNew.rotateLog rotatedState
  rw [hsw]

end MiniWal
namespace MiniWal

set_option maxHeartbeats 1600000 in
/-- C5.  `writeEntry` (newer draft) first checks rotation; when the new
frame would overflow the segment cap it synchronously flushes and fsyncs
(`Sync`) and then rotates (`rotateLog`, itself sealing the old segment
with a flush+fsync) to a segment numbered one greater than the current
(maximal) one, and only then appends the new frame — entirely into the
fresh segment.  When no rotation is needed the active segment is kept.
Hypotheses: the engine is open, the next segment's name is not the active
one and has no file yet (true in every reachable state, where segment
numbers only grow). -/
theorem c5_writeEntry_sync_then_rotate (w : WalState) (data : List Nat) (cp : Bool)
    (hnil : w.fileIsNil = false) (hctx : w.ctxCancelled = false)
    (hcl : w.fileClosed = false)
    (hname : w.fileName ≠ w.fileNameBase ++ toString (w.currentSegmentNo + 1))
    (hfresh : dirGet w.files (w.fileNameBase ++ toString (w.currentSegmentNo + 1)) = []) :
    (WalNew.checkRotateLog w data = true →
        (WalNew.writeEntry w data cp).1 = .ok ()
      ∧ (WalNew.writeEntry w data cp).2.currentSegmentNo = w.currentSegmentNo + 1
      ∧ (WalNew.writeEntry w data cp).2.fileName
          = w.fileNameBase ++ toString (w.currentSegmentNo + 1)
      ∧ dirGet (WalNew.writeEntry w data cp).2.files w.fileName
          = dirGet w.files w.fileName ++ w.buf
      ∧ dirGet (WalNew.writeEntry w data cp).2.files
            (w.fileNameBase ++ toString (w.currentSegmentNo + 1))
          ++ (WalNew.writeEntry w data cp).2.buf
          = frameOf (marshalEntry
              ⟨(w.lastSeqNo + 1) % 2 ^ 64, data,
                crc32 (data ++ [byteOf ((w.lastSeqNo + 1) % 2 ^ 64)]),
                if cp then some true else none⟩)
      ∧ (WalNew.writeEntry w data cp).2.lastSeqNo = (w.lastSeqNo + 1) % 2 ^ 64)
  ∧ (WalNew.checkRotateLog w data = false →
        (WalNew.writeEntry w data cp).2.currentSegmentNo = w.currentSegmentNo
      ∧ (WalNew.writeEntry w data cp).2.fileName = w.fileName) := by
  obtain ⟨s1ok, s1cur, s1buf, s1fn, s1cl, s1nil, s1seq, s1seg, s1b, s1m, s1ctx, s1o, s1h⟩ :=
    sync_stream w hcl
  have hcheck : (w.fileIsNil || w.ctxCancelled) = false := by rw [hnil, hctx]; rfl
  constructor
  · intro hrot
    have hclu : (sync w).2.fileClosed = false := by rw [s1cl]; exact hcl
    obtain ⟨s2ok, s2cur, s2buf, s2fn, s2cl, s2nil, s2seq, s2seg, s2b, s2m, s2ctx, s2o, s2h⟩ :=
      sync_stream (sync w).2 hclu
    -- name the rotated state and derive its field values
    set R := rotatedState (sync w).2 with hR
    have hnn : ((sync (sync w).2).2.fileNameBase
        ++ toString ((sync (sync w).2).2.currentSegmentNo + 1))
        = w.fileNameBase ++ toString (w.currentSegmentNo + 1) := by
      rw [s2b, s1b, s2seg, s1seg]
    have hRfiles : ∀ m, dirGet R.files m = dirGet (sync (sync w).2).2.files m := by
      intro m
      rw [hR]
      unfold rotatedState
      exact dirGet_dirSet_refresh _ _ _
    have hRfn : R.fileName = w.fileNameBase ++ toString (w.currentSegmentNo + 1) := by
      rw [hR]
      unfold rotatedState
      exact hnn
    have hRseg : R.currentSegmentNo = w.currentSegmentNo + 1 := by
      rw [hR]
      unfold rotatedState
      simp only []
      rw [s2seg, s1seg]
    have hRseq : R.lastSeqNo = w.lastSeqNo := by
      rw [hR]
      unfold rotatedState
      simp only []
      rw [s2seq, s1seq]
    have hRbuf : R.buf = [] := by rw [hR]; rfl
    have hRcl : R.fileClosed = false := by rw [hR]; rfl
    have hRold : dirGet R.files w.fileName = dirGet w.files w.fileName ++ w.buf := by
      rw [hRfiles]
      have : (sync (sync w).2).2.fileName = w.fileName := by rw [s2fn, s1fn]
      calc dirGet (sync (sync w).2).2.files w.fileName
          = curContent (sync (sync w).2).2 := by unfold curContent; rw [this]
        _ = curContent (sync w).2 ++ (sync w).2.buf := s2cur
        _ = curContent (sync w).2 := by rw [s1buf]; simp
        _ = curContent w ++ w.buf := s1cur
        _ = dirGet w.files w.fileName ++ w.buf := rfl
    have hRnew : dirGet R.files (w.fileNameBase ++ toString (w.currentSegmentNo + 1)) = [] := by
      rw [hRfiles]
      rw [s2o _ (by rw [s1fn]; exact fun hh => hname hh.symm)]
      rw [s1o _ (fun hh => hname hh.symm)]
      exact hfresh
    have hclR : ∀ n : Nat, ({ R with lastSeqNo := n } : WalState).fileClosed = false := fun _ => hRcl
    have hseq2 : (R.lastSeqNo + 1) % 2 ^ 64 = (w.lastSeqNo + 1) % 2 ^ 64 := by rw [hRseq]
    have hfin : ∀ e : Entry,
        (writeIntoBuffer { R with lastSeqNo := (R.lastSeqNo + 1) % 2 ^ 64 } e).1 = .ok ()
      ∧ (writeIntoBuffer { R with lastSeqNo := (R.lastSeqNo + 1) % 2 ^ 64 } e).2.currentSegmentNo
          = w.currentSegmentNo + 1
      ∧ (writeIntoBuffer { R with lastSeqNo := (R.lastSeqNo + 1) % 2 ^ 64 } e).2.fileName
          = w.fileNameBase ++ toString (w.currentSegmentNo + 1)
      ∧ dirGet (writeIntoBuffer { R with lastSeqNo := (R.lastSeqNo + 1) % 2 ^ 64 } e).2.files
            w.fileName = dirGet w.files w.fileName ++ w.buf
      ∧ dirGet (writeIntoBuffer { R with lastSeqNo := (R.lastSeqNo + 1) % 2 ^ 64 } e).2.files
            (w.fileNameBase ++ toString (w.currentSegmentNo + 1))
          ++ (writeIntoBuffer { R with lastSeqNo := (R.lastSeqNo + 1) % 2 ^ 64 } e).2.buf
          = frameOf (marshalEntry e)
      ∧ (writeIntoBuffer { R with lastSeqNo := (R.lastSeqNo + 1) % 2 ^ 64 } e).2.lastSeqNo
          = (w.lastSeqNo + 1) % 2 ^ 64 := by
      intro e
      obtain ⟨tok, ts, tf, tc, tn, tseq, tseg, tb, tm, tctx, to2, th⟩ :=
        writeIntoBuffer_stream { R with lastSeqNo := (R.lastSeqNo + 1) % 2 ^ 64 } e (hclR _)
      have hw2fn : ({ R with lastSeqNo := (R.lastSeqNo + 1) % 2 ^ 64 } : WalState).fileName
          = w.fileNameBase ++ toString (w.currentSegmentNo + 1) := hRfn
      refine ⟨tok, ?_, ?_, ?_, ?_, ?_⟩
      · rw [tseg]
        exact hRseg
      · rw [tf]
        exact hRfn
      · rw [to2 _ (by rw [hw2fn]; exact hname)]
        exact hRold
      · have hfc : (writeIntoBuffer { R with lastSeqNo := (R.lastSeqNo + 1) % 2 ^ 64 } e).2.fileName
            = w.fileNameBase ++ toString (w.currentSegmentNo + 1) := by
          rw [tf]
          exact hRfn
        have h2 : curContent ({ R with lastSeqNo := (R.lastSeqNo + 1) % 2 ^ 64 } : WalState)
            = dirGet R.files R.fileName := rfl
        have h3 : ({ R with lastSeqNo := (R.lastSeqNo + 1) % 2 ^ 64 } : WalState).buf = [] := hRbuf
        have h4 : curContent (writeIntoBuffer { R with lastSeqNo := (R.lastSeqNo + 1) % 2 ^ 64 } e).2
            = dirGet (writeIntoBuffer { R with lastSeqNo := (R.lastSeqNo + 1) % 2 ^ 64 } e).2.files
                (w.fileNameBase ++ toString (w.currentSegmentNo + 1)) := by
          unfold curContent
          rw [hfc]
        calc dirGet (writeIntoBuffer { R with lastSeqNo := (R.lastSeqNo + 1) % 2 ^ 64 } e).2.files
              (w.fileNameBase ++ toString (w.currentSegmentNo + 1))
            ++ (writeIntoBuffer { R with lastSeqNo := (R.lastSeqNo + 1) % 2 ^ 64 } e).2.buf
            = curContent (writeIntoBuffer { R with lastSeqNo := (R.lastSeqNo + 1) % 2 ^ 64 } e).2
              ++ (writeIntoBuffer { R with lastSeqNo := (R.lastSeqNo + 1) % 2 ^ 64 } e).2.buf := by
              rw [h4]
          _ = curContent ({ R with lastSeqNo := (R.lastSeqNo + 1) % 2 ^ 64 } : WalState)
              ++ ({ R with lastSeqNo := (R.lastSeqNo + 1) % 2 ^ 64 } : WalState).buf
              ++ frameOf (marshalEntry e) := ts
          _ = dirGet R.files R.fileName ++ [] ++ frameOf (marshalEntry e) := by rw [h2, h3]
          _ = dirGet R.files (w.fileNameBase ++ toString (w.currentSegmentNo + 1)) ++ []
              ++ frameOf (marshalEntry e) := by rw [hRfn]
          _ = [] ++ [] ++ frameOf (marshalEntry e) := by rw [hRnew]
          _ = frameOf (marshalEntry e) := by simp
      · rw [tseq]
        exact hseq2
    rw [hseq2] at hfin
    cases cp with
    | false =>
      have hred : WalNew.writeEntry w data false
          = writeIntoBuffer { R with lastSeqNo := (R.lastSeqNo + 1) % 2 ^ 64 }
              ⟨(R.lastSeqNo + 1) % 2 ^ 64, data,
                crc32 (data ++ [byteOf ((R.lastSeqNo + 1) % 2 ^ 64)]), none⟩ := by
        unfold WalNew.writeEntry
        simp only [hcheck, Bool.false_eq_true, if_false, hrot, if_true]
        rw [sync_eq w hcl]
        simp only []
        rw [rotateLog_eq (sync w).2 hclu]
      rw [hseq2] at hred
      rw [hred]
      exact hfin ⟨(w.lastSeqNo + 1) % 2 ^ 64, data,
        crc32 (data ++ [byteOf ((w.lastSeqNo + 1) % 2 ^ 64)]), none⟩
    | true =>
      have hred : WalNew.writeEntry w data true
          = writeIntoBuffer { R with lastSeqNo := (R.lastSeqNo + 1) % 2 ^ 64 }
              ⟨(R.lastSeqNo + 1) % 2 ^ 64, data,
                crc32 (data ++ [byteOf ((R.lastSeqNo + 1) % 2 ^ 64)]), some true⟩ := by
        unfold WalNew.writeEntry
        simp only [hcheck, Bool.false_eq_true, if_false, hrot, if_true]
        rw [sync_eq w hcl]
        simp only []
        rw [rotateLog_eq (sync w).2 hclu]
        simp only []
        rw [sync_nop { R with lastSeqNo := (R.lastSeqNo + 1) % 2 ^ 64 } hRbuf hRcl]
      rw [hseq2] at hred
      rw [hred]
      exact hfin ⟨(w.lastSeqNo + 1) % 2 ^ 64, data,
        crc32 (data ++ [byteOf ((w.lastSeqNo + 1) % 2 ^ 64)]), some true⟩
  · intro hrot
    have hred : ∀ e : Entry,
        ((writeIntoBuffer { w with lastSeqNo := (w.lastSeqNo + 1) % 2 ^ 64 } e).2.currentSegmentNo
            = w.currentSegmentNo
          ∧ (writeIntoBuffer { w with lastSeqNo := (w.lastSeqNo + 1) % 2 ^ 64 } e).2.fileName
            = w.fileName) := by
      intro e
      obtain ⟨tok, ts, tf, tc, tn, tseq, tseg, tb, tm, tctx, to2, th⟩ :=
        writeIntoBuffer_stream { w with lastSeqNo := (w.lastSeqNo + 1) % 2 ^ 64 } e hcl
      exact ⟨tseg, tf⟩
    cases cp with
    | false =>
      have hw : WalNew.writeEntry w data false
          = writeIntoBuffer { w with lastSeqNo := (w.lastSeqNo + 1) % 2 ^ 64 }
              ⟨(w.lastSeqNo + 1) % 2 ^ 64, data,
                crc32 (data ++ [byteOf ((w.lastSeqNo + 1) % 2 ^ 64)]), none⟩ := by
        unfold WalNew.writeEntry
        simp only [hcheck, Bool.false_eq_true, if_false, hrot]
      rw [hw]
      exact hred _
    | true =>
      obtain ⟨u1ok, u1cur, u1buf, u1fn, u1cl, u1nil, u1seq, u1seg, u1b, u1m, u1ctx, u1o, u1h⟩ :=
        sync_stream { w with lastSeqNo := (w.lastSeqNo + 1) % 2 ^ 64 } hcl
      have hsu : sync { w with lastSeqNo := (w.lastSeqNo + 1) % 2 ^ 64 }
          = (.ok (), (sync { w with lastSeqNo := (w.lastSeqNo + 1) % 2 ^ 64 }).2) := by
        rw [← u1ok]
      have hw : WalNew.writeEntry w data true
          = writeIntoBuffer (sync { w with lastSeqNo := (w.lastSeqNo + 1) % 2 ^ 64 }).2
              ⟨(w.lastSeqNo + 1) % 2 ^ 64, data,
                crc32 (data ++ [byteOf ((w.lastSeqNo + 1) % 2 ^ 64)]), some true⟩ := by
        unfold WalNew.writeEntry
        simp only [hcheck, Bool.false_eq_true, if_false, hrot]
        rw [hsu]
        rfl
      rw [hw]
      obtain ⟨tok, ts, tf, tc, tn, tseq, tseg, tb, tm, tctx, to2, th⟩ :=
        writeIntoBuffer_stream (sync { w with lastSeqNo := (w.lastSeqNo + 1) % 2 ^ 64 }).2
          _ (by rw [u1cl]; exact hcl)
      constructor
      · rw [tseg, u1seg]
      · rw [tf, u1fn]

/-- Concrete state used to witness the rotation theorem: a nearly full
16-byte segment into which one more framed entry does not fit. -/
def c5w : WalState :=
  { files := [("b-1", [1, 2, 3, 4, 5, 6, 7, 8])], fileNameBase := "b-", fileName := "b-1",
    fileOffset := 8, fileClosed := false, fileIsNil := false, buf := [9, 10],
    lastSeqNo := 1, currentSegmentNo := 1, maxLogFileSize := 16, ctxCancelled := false }

/-- Witness for the rotation theorem at the concrete state `c5w`. -/
theorem c5_writeEntry_sync_then_rotate_witness :
    c5w.fileIsNil = false ∧ c5w.ctxCancelled = false ∧ c5w.fileClosed = false ∧
    c5w.fileName ≠ c5w.fileNameBase ++ toString (c5w.currentSegmentNo + 1) ∧
    dirGet c5w.files (c5w.fileNameBase ++ toString (c5w.currentSegmentNo + 1)) = [] ∧
    WalNew.checkRotateLog c5w [5] = true ∧
    (WalNew.writeEntry c5w [5] false).2.currentSegmentNo = c5w.currentSegmentNo + 1 :=
  ⟨rfl, rfl, rfl, by decide, by decide, by decide,
    ((c5_writeEntry_sync_then_rotate c5w [5] false rfl rfl rfl (by decide) (by decide)).1
        (by decide)).2.1⟩


/-- C6.  Checkpoint-scoped read: on an open engine whose active segment
holds exactly the frames of the well-formed records `es`,
`ReadFromCheckPoint` returns the records from the most recent checkpoint
record (inclusive) through the end of the segment — and the whole of `es`
when no checkpoint record exists, exactly like `ReadAll`, which returns
all of `es` in on-disk order. -/
theorem c6_readFromCheckPoint_scope (w : WalState) (es : List Entry)
    (hnil : w.fileIsNil = false)
    (hhas : dirHas w.files w.fileName = true)
    (hdisk : dirGet w.files w.fileName = encodeFrames es)
    (hgood : ∀ e ∈ es, GoodEntryNew e) :
    WalNew.readFromCheckPoint w = .ok (checkpointSuffix es)
  ∧ WalNew.readAll w = .ok es := by
  constructor
  · unfold WalNew.readFromCheckPoint WalNew.readAllEntries
    rw [hnil]
    simp only [Bool.false_eq_true, if_false, hhas, if_true, hdisk]
    rw [readLoopNew_frames true es [] hgood]
    congr 1
    have hfn : (fun (a : List Entry) (e : Entry) =>
          (if true && e.getIsCheckpoint then [] else a) ++ [e])
        = (fun (a : List Entry) (e : Entry) =>
          (if e.getIsCheckpoint then [] else a) ++ [e]) := by
      funext a e
      simp
    rw [hfn, foldl_checkpoint]
    by_cases ha : es.any (fun e => e.getIsCheckpoint)
    · simp [ha]
    · simp only [ha, Bool.false_eq_true, if_false, List.nil_append]
      exact (checkpointSuffix_no_cp es (by simpa using ha)).symm
  · unfold WalNew.readAll WalNew.readAllEntries
    rw [hnil]
    simp only [Bool.false_eq_true, if_false, hhas, if_true, hdisk]
    rw [readLoopNew_frames false es [] hgood]
    simp only [Bool.false_and, Bool.false_eq_true, if_false]
    rw [foldl_snoc_eq]
    simp

/-- The four records of the checkpoint-scoping example: A, B, a checkpoint
C, then D. -/
def c6A : Entry := ⟨1, [10], crc32 ([10] ++ [byteOf 1]), none⟩

def c6B : Entry := ⟨2, [20], crc32 ([20] ++ [byteOf 2]), none⟩

def c6C : Entry := ⟨3, [30], crc32 ([30] ++ [byteOf 3]), some true⟩

def c6D : Entry := ⟨4, [40], crc32 ([40] ++ [byteOf 4]), none⟩

def c6es : List Entry := [c6A, c6B, c6C, c6D]

/-- An open engine over a segment holding exactly A, B, C, D. -/
def c6w : WalState :=
  { files := [("wd/segment-1", encodeFrames c6es)]
    fileNameBase := "wd/segment-"
    fileName := "wd/segment-1"
    fileOffset := 0
    fileClosed := false
    fileIsNil := false
    buf := []
    lastSeqNo := 4
    currentSegmentNo := 1
    maxLogFileSize := 16 * 1024 * 1024
    ctxCancelled := false }

/-- Witness: after writing A, B, checkpoint C, D, `ReadFromCheckPoint`
returns exactly `[C, D]` while `ReadAll` returns all four records. -/
theorem c6_readFromCheckPoint_scope_witness :
    c6w.fileIsNil = false ∧ dirHas c6w.files c6w.fileName = true
  ∧ dirGet c6w.files c6w.fileName = encodeFrames c6es
  ∧ (∀ e ∈ c6es, GoodEntryNew e)
  ∧ WalNew.readFromCheckPoint c6w = .ok [c6C, c6D]
  ∧ WalNew.readAll c6w = .ok c6es :=
  have h := c6_readFromCheckPoint_scope c6w c6es rfl (by decide) rfl (by decide)
  ⟨rfl, by decide, rfl, by decide, by rw [h.1]; decide, h.2⟩


/-- Nine single-digit segments; the highest-numbered one holds three
bytes, so its end-of-file offset is 3. -/
def c7nine : WalState :=
  { files := [("wal-data/segment-1", []), ("wal-data/segment-2", []),
      ("wal-data/segment-3", []), ("wal-data/segment-4", []), ("wal-data/segment-5", []),
      ("wal-data/segment-6", []), ("wal-data/segment-7", []), ("wal-data/segment-8", []),
      ("wal-data/segment-9", [1, 2, 3])]
    fileNameBase := "wal-data/" ++ segmentTag
    fileName := ""
    fileOffset := 0
    fileClosed := false
    fileIsNil := true
    buf := []
    lastSeqNo := 0
    currentSegmentNo := 1
    maxLogFileSize := 16 * 1024 * 1024
    ctxCancelled := false }

/-- C7 amended.  Discovery opens the lexicographically last matching file
name — which is the numerically highest segment only while all segment
numbers have equally many digits (the ten-segment counterexample shows the
two orders diverge beyond nine) — in append mode, positions the write
offset at end of file (here 3, the size of segment 9), and recovers the
segment number from the name.  With an empty directory, discovery creates
segment number 1 with the write offset at the start of the new empty
file — but `Open` as a whole still never succeeds, because recovery then
fails on the write-only handle for every configuration. -/
theorem c7_opens_highest_of_nine (cfg : Option Options) :
    ((openExistingSegment c7nine).map
        (fun w => (w.fileName, w.fileOffset, w.currentSegmentNo, w.files))
      = .ok ("wal-data/" ++ segmentTag ++ toString 9, 3, 9, c7nine.files))
  ∧ (∃ w1, openExistingOrCreateSegment
        { files := []
          fileNameBase := (initConfig cfg).LogDir ++ segmentTag
          fileName := ""
          fileOffset := 0
          fileClosed := false
          fileIsNil := true
          buf := []
          lastSeqNo := 0
          currentSegmentNo := 1
          maxLogFileSize := (initConfig cfg).MaxLogFileSize
          ctxCancelled := false } = .ok w1
      ∧ w1.fileNameBase = (initConfig cfg).LogDir ++ segmentTag
      ∧ w1.fileName = w1.fileNameBase ++ toString 1
      ∧ w1.fileOffset = 0
      ∧ w1.currentSegmentNo = 1
      ∧ dirGet w1.files w1.fileName = [])
  ∧ (∀ w2 : WalState, WalNew.openEngine cfg [] ≠ .ok w2) := by
  refine ⟨by decide, ?_, ?_⟩
  · have hget : dirGet (dirSet ([] : List (String × List Nat))
        (((initConfig cfg).LogDir ++ segmentTag) ++ toString 1) [])
        (((initConfig cfg).LogDir ++ segmentTag) ++ toString 1) = [] :=
      dirGet_dirSet_self [] _ []
    exact ⟨{ files := dirSet [] (((initConfig cfg).LogDir ++ segmentTag) ++ toString 1) [],
             fileNameBase := (initConfig cfg).LogDir ++ segmentTag,
             fileName := ((initConfig cfg).LogDir ++ segmentTag) ++ toString 1,
             fileOffset := 0, fileClosed := false, fileIsNil := false, buf := [],
             lastSeqNo := 0, currentSegmentNo := 1,
             maxLogFileSize := (initConfig cfg).MaxLogFileSize, ctxCancelled := false },
           rfl, rfl, rfl, rfl, rfl, hget⟩
  · intro w2
    unfold WalNew.openEngine
    simp only []
    exact openWal_never_ok _ w2


theorem dirHas_dirSet_ne (fs : List (String × List Nat)) (n m : String) (v : List Nat)
    (h : m ≠ n) : dirHas (dirSet fs n v) m = dirHas fs m := by
  have hnm : (n == m) = false := by
    simp only [beq_eq_false_iff_ne, ne_eq]
    exact fun hh => h hh.symm
  induction fs with
  | nil => simp [dirHas, dirSet, List.find?, hnm]
  | cons p rest ih =>
    by_cases hp : p.1 == n
    · have hpn := eq_of_beq hp
      have hpm : (p.1 == m) = false := by rw [hpn]; exact hnm
      simp [dirSet, hp, dirHas, List.find?, hpm, hnm]
    · simp only [dirSet, hp, Bool.false_eq_true, if_false, dirHas, List.find?]
      by_cases hm : p.1 == m
      · simp [hm]
      · simp only [hm, Bool.false_eq_true, if_false]
        simpa [dirHas] using ih

/-- The records of the sealed first segment. -/
def c10old : List Entry :=
  [⟨1, [11], crc32 ([11] ++ [byteOf 1]), none⟩, ⟨2, [22], crc32 ([22] ++ [byteOf 2]), none⟩]

/-- The records of the active second segment, written after the log
rotated. -/
def c10new : List Entry := [⟨3, [33], crc32 ([33] ++ [byteOf 3]), none⟩]

/-- A post-rotation engine: segment 1 is sealed with two records, segment
2 is active and holds one record. -/
def c10w : WalState :=
  { files := [("wal-data/segment-1", encodeFrames c10old),
      ("wal-data/segment-2", encodeFrames c10new)]
    fileNameBase := "wal-data/" ++ segmentTag
    fileName := "wal-data/segment-2"
    fileOffset := (encodeFrames c10new).length
    fileClosed := false
    fileIsNil := false
    buf := []
    lastSeqNo := 3
    currentSegmentNo := 2
    maxLogFileSize := 64
    ctxCancelled := false }

/-- C10.  Reads scan only the active segment: rewriting any other file of
the directory (in particular a sealed earlier segment) never changes what
`readAllEntries` returns, on either read path; and on the concrete
post-rotation log `c10w` both `ReadAll` and `ReadFromCheckPoint` return
exactly the active segment's records — none of the sealed segment's
records, which are all absent from the result. -/
theorem c10_read_scans_only_active_segment :
    (∀ (w : WalState) (fc : Bool) (n : String) (v : List Nat), n ≠ w.fileName →
      WalNew.readAllEntries { w with files := dirSet w.files n v } fc
        = WalNew.readAllEntries w fc)
  ∧ WalNew.readAll c10w = .ok c10new
  ∧ WalNew.readFromCheckPoint c10w = .ok c10new
  ∧ (∀ e ∈ c10old, e ∉ c10new) := by
  refine ⟨?_, by decide, by decide, by decide⟩
  intro w fc n v hne
  unfold WalNew.readAllEntries
  simp only []
  rw [dirHas_dirSet_ne w.files n w.fileName v (fun hh => hne hh.symm)]
  rw [dirGet_dirSet_ne w.files n w.fileName v (fun hh => hne hh.symm)]

/-- Witness: overwriting the sealed segment 1 with garbage does not change
what a read of the post-rotation log returns. -/
theorem c10_read_scans_only_active_segment_witness :
    ("wal-data/segment-1" : String) ≠ c10w.fileName
  ∧ WalNew.readAllEntries { c10w with
        files := dirSet c10w.files "wal-data/segment-1" [7] } false
      = WalNew.readAllEntries c10w false :=
  ⟨by decide,
    c10_read_scans_only_active_segment.1 c10w false "wal-data/segment-1" [7] (by decide)⟩

end MiniWal
